import Mathlib

/-!
Verification of the best-fit heap allocator in `bf-alloc.c`.

The allocator keeps every block header in heap memory; headers are linked
into two intrusive doubly-linked lists (a free list and an allocated list).
We embed the heap shallowly: memory holding headers becomes an association
list from (byte) addresses to header records, block payload bytes become a
function from addresses to byte values, and the global variables of the C
file become fields of an explicit state record.  Machine pointers are
modelled as natural numbers, with `none`/`some` standing for `NULL`/non-null
pointers at the API boundary.  Fatal errors raised through `ERROR(...)`
terminate the process; they are modelled as a dedicated result constructor,
as are reads through dangling pointers (undefined behaviour in C) and
non-termination of the free-list scan.
-/

namespace BFAlloc

/-- Mirror of `struct header` (`bf-alloc.c`, lines 35-49): list links, the
usable block size, and the allocation flag. -/
structure Header where
  next : Option Nat
  prev : Option Nat
  size : Nat
  allocated : Bool
deriving Repr, DecidableEq

/-- Heap memory that holds headers: an association list from the address of a
header to its contents.  Earlier entries shadow later ones, as a fresh header
written over an address supersedes what was there. -/
abbrev Mem := List (Nat × Header)

/-- Read the header stored at address `a`, if any. -/
def Mem.find : Mem → Nat → Option Header
  | [], _ => none
  | (k, h) :: rest, a => if k = a then some h else Mem.find rest a

/-- Addresses at which a header is stored. -/
def Mem.keys (m : Mem) : List Nat := m.map Prod.fst

/-- Write through a pointer to the header at address `a`, updating it with
`f`.  In the C source this is a plain field store through a `header_s*`; a
store through an address holding no header is undefined behaviour there, and
is a no-op here (all theorems only exercise stores to live headers). -/
def Mem.modify : Mem → Nat → (Header → Header) → Mem
  | [], _, _ => []
  | (k, h) :: rest, a, f => if k = a then (k, f h) :: rest else (k, h) :: Mem.modify rest a f

/-- Store `hp->next = v`. -/
def Mem.setNext (m : Mem) (a : Nat) (v : Option Nat) : Mem :=
  Mem.modify m a (fun h => { h with next := v })

/-- Store `hp->prev = v`. -/
def Mem.setPrev (m : Mem) (a : Nat) (v : Option Nat) : Mem :=
  Mem.modify m a (fun h => { h with prev := v })

/-- Store `hp->allocated = v`. -/
def Mem.setAllocated (m : Mem) (a : Nat) (v : Bool) : Mem :=
  Mem.modify m a (fun h => { h with allocated := v })

/-- Write a whole header into virgin memory at address `a` (the bump path of
`malloc` does this field by field at a fresh address). -/
def Mem.write (m : Mem) (a : Nat) (h : Header) : Mem := (a, h) :: m

/-- The global state of `bf-alloc.c` (lines 83-95): the header memory, the
payload bytes, the two list heads, and the heap-region bounds and bump
cursor. -/
structure AllocState where
  mem : Mem
  data : Nat → Nat
  free_list_head : Option Nat
  allocated_list_head : Option Nat
  free_addr : Nat
  start_addr : Nat
  end_addr : Nat

/-- State at process start: all globals zero-initialized. -/
def initialState : AllocState :=
  { mem := [], data := fun _ => 0, free_list_head := none, allocated_list_head := none,
    free_addr := 0, start_addr := 0, end_addr := 0 }

/-- `HEAP_SIZE` is `GB(2)` (line 69). -/
def HEAP_SIZE : Nat := 2 * 1024 * 1024 * 1024

/-- Size of `header_s` on the target platform: two 8-byte pointers, an 8-byte
`size_t`, and a `bool` padded to 8 bytes. -/
def sizeof_header_s : Nat := 32

/-- Macro `HEADER_TO_BLOCK` (line 72): the block starts right after its
header. -/
def HEADER_TO_BLOCK (hp : Nat) : Nat := hp + sizeof_header_s

/-- Macro `BLOCK_TO_HEADER` (line 75): recover the header address from a
block address by the inverse fixed offset. -/
def BLOCK_TO_HEADER (bp : Nat) : Nat := bp - sizeof_header_s

/-- Width of `size_t` arithmetic: products wrap modulo `2 ^ 64`. -/
def WORD_MODULUS : Nat := 2 ^ 64

/-- Function `init` (lines 105-135).  `heapBase` is the address returned by
the successful `mmap` call (a successful map of a fresh 2GB region is
nonzero; the failure branch calls `ERROR` and never returns). -/
def init (heapBase : Nat) (s : AllocState) : AllocState :=
  if s.start_addr = 0 then
    { s with start_addr := heapBase, end_addr := heapBase + HEAP_SIZE, free_addr := heapBase }
  else s

/-- Result of the free-list scan in `malloc`: the loop can diverge on a
corrupted (cyclic) list, dereference a dangling pointer, call `ERROR` on an
allocated block found on the free list, or finish with the best candidate
(address and its recorded size) together with the number of headers it
visited. -/
inductive ScanRes where
  | div
  | ub
  | fatal
  | ok : Option (Nat × Nat) → Nat → ScanRes
deriving Repr, DecidableEq

/-- The `while (current != NULL)` loop of `malloc` (lines 162-190): walk the
free list keeping the best candidate, replacing it only when the current
block fits and is strictly smaller, and break once the candidate's size is
exactly the request.  `fuel` bounds the walk; any terminating execution of
the C loop visits each live header at most once, so callers pass one more
than the number of stored headers and `.div` coincides with actual
non-termination of the C loop. -/
def scanLoop (m : Mem) (size : Nat) : Nat → Option Nat → Option (Nat × Nat) → ScanRes
  | 0, _, _ => .div
  | _ + 1, none, best => .ok best 0
  | fuel + 1, some cur, best =>
    match Mem.find m cur with
    | none => .ub
    | some h =>
      if h.allocated then .fatal
      else
        let best' : Option (Nat × Nat) :=
          match best with
          | none => if size ≤ h.size then some (cur, h.size) else none
          | some (b, bs) => if size ≤ h.size ∧ h.size < bs then some (cur, h.size) else some (b, bs)
        match best' with
        | some (b, bs) =>
          if bs = size then .ok (some (b, bs)) 1
          else
            match scanLoop m size fuel h.next (some (b, bs)) with
            | .ok r c => .ok r (c + 1)
            | r => r
        | none =>
          match scanLoop m size fuel h.next none with
          | .ok r c => .ok r (c + 1)
          | r => r

/-- Result of an operation that returns a pointer: divergence, undefined
behaviour, a fatal `ERROR`, or normal return of a possibly-null pointer in a
final state. -/
inductive MRes where
  | div
  | ub
  | fatal
  | ok : Option Nat → AllocState → MRes

/-- Returned pointer of a normal result. -/
def MRes.ret? : MRes → Option (Option Nat)
  | .ok r _ => some r
  | _ => none

/-- Final state of a normal result. -/
def MRes.st? : MRes → Option AllocState
  | .ok _ s => some s
  | _ => none

/-- Reuse path of `malloc` (lines 201-233): unlink the best-fitting block
`b` (whose header read `hb`) from the free list, splice it onto the head of
the allocated list, and mark it allocated.  The field stores happen in the
order of the C statements. -/
def reusePath (s : AllocState) (b : Nat) (hb : Header) : AllocState :=
  -- lines 207-216: unlink `best` from the free list
  let s1 : AllocState :=
    match hb.prev with
    | none => { s with free_list_head := hb.next }
    | some pa => { s with mem := Mem.setNext s.mem pa hb.next }
  let s2 : AllocState :=
    match hb.next with
    | none => s1
    | some na => { s1 with mem := Mem.setPrev s1.mem na hb.prev }
  -- lines 220-230: splice `best` onto the head of the allocated list
  let oldAl := s2.allocated_list_head
  let s3 := { s2 with mem := Mem.setNext s2.mem b oldAl, allocated_list_head := some b }
  let s4 := { s3 with mem := Mem.setPrev s3.mem b none }
  let s5 :=
    match oldAl with
    | none => s4
    | some oa => { s4 with mem := Mem.setPrev s4.mem oa (some b) }
  { s5 with mem := Mem.setAllocated s5.mem b true }

/-- Bump path of `malloc` (lines 237-276): advance the bump cursor to the
next 16-byte boundary, write a fresh header there, splice it onto the head
of the allocated list, then either fail with `NULL` (leaving the cursor at
the alignment boundary) or advance the cursor past the new block. -/
def bumpPath (s : AllocState) (size : Nat) : MRes :=
  let fa := s.free_addr + (16 - s.free_addr % 16)
  let blk := HEADER_TO_BLOCK fa
  let oldAl := s.allocated_list_head
  let hdr : Header := { next := oldAl, prev := none, size := size, allocated := true }
  let m1 := Mem.write s.mem fa hdr
  let m2 :=
    match oldAl with
    | none => m1
    | some oa => Mem.setPrev m1 oa (some fa)
  let s' := { s with mem := m2, allocated_list_head := some fa, free_addr := fa }
  let newFree := blk + size
  if s.end_addr < newFree then .ok none s'
  else .ok (some blk) { s' with free_addr := newFree }

/-- Function `malloc` (lines 148-282).  It initializes the heap if needed,
returns `NULL` on a zero-size request, scans the free list for the best fit,
and either splices the best block onto the allocated list or carves a new
block at the aligned bump cursor, failing with `NULL` when the new block
would end past the region end. -/
def malloc (heapBase : Nat) (size : Nat) (s0 : AllocState) : MRes :=
  let s := init heapBase s0
  if size = 0 then .ok none s
  else
    match scanLoop s.mem size (s.mem.length + 1) s.free_list_head none with
    | .div => .div
    | .ub => .ub
    | .fatal => .fatal
    | .ok best _count =>
      match best with
      | some (b, _bs) =>
        match Mem.find s.mem b with
        | none => .ub
        | some hb => .ok (some (HEADER_TO_BLOCK b)) (reusePath s b hb)
      | none => bumpPath s size

/-- Result of `free`: undefined behaviour, the fatal double-free `ERROR`, or
a normal (void) return in a final state. -/
inductive FRes where
  | ub
  | fatal
  | ok : AllocState → FRes

/-- Final state of a normal `free` result. -/
def FRes.st? : FRes → Option AllocState
  | .ok s => some s
  | _ => none

/-- Splice performed by `free` (lines 311-335): unlink the header at
`hpAddr` (read as `h`) from the allocated list and push it onto the head of
the free list, clearing its flag.  The field stores happen in the order of
the C statements. -/
def freePath (s : AllocState) (hpAddr : Nat) (h : Header) : AllocState :=
  -- lines 311-321: unlink from the allocated list
  let s1 : AllocState :=
    match h.next with
    | none => s
    | some na => { s with mem := Mem.setPrev s.mem na h.prev }
  let s2 : AllocState :=
    match h.prev with
    | none => { s1 with allocated_list_head := h.next }
    | some pa => { s1 with mem := Mem.setNext s1.mem pa h.next }
  -- lines 325-335: push onto the head of the free list
  let flh := s2.free_list_head
  let s3 := { s2 with mem := Mem.setNext s2.mem hpAddr flh, free_list_head := some hpAddr }
  let s4 := { s3 with mem := Mem.setPrev s3.mem hpAddr none }
  let s5 :=
    match flh with
    | none => s4
    | some fo => { s4 with mem := Mem.setPrev s4.mem fo (some hpAddr) }
  { s5 with mem := Mem.setAllocated s5.mem hpAddr false }

/-- Function `free` (lines 294-337): ignore `NULL`, recover the header by
the fixed offset, raise the fatal double-free error when the header is not
allocated, and otherwise perform the splice. -/
def freeOp (ptr : Option Nat) (s : AllocState) : FRes :=
  match ptr with
  | none => .ok s
  | some p =>
    let hpAddr := BLOCK_TO_HEADER p
    match Mem.find s.mem hpAddr with
    | none => .ub
    | some h =>
      if h.allocated = false then .fatal
      else .ok (freePath s hpAddr h)

/-- Model of `memset(p, 0, n)` on the payload bytes. -/
def zeroRange (d : Nat → Nat) (p n : Nat) : Nat → Nat :=
  fun a => if p ≤ a ∧ a < p + n then 0 else d a

/-- Model of `memcpy(dst, src, n)` on the payload bytes. -/
def copyRange (d : Nat → Nat) (src dst n : Nat) : Nat → Nat :=
  fun a => if dst ≤ a ∧ a < dst + n then d (src + (a - dst)) else d a

/-- Function `calloc` (lines 351-364): multiply the two size arguments with
wraparound `size_t` arithmetic and no overflow check, delegate to `malloc`,
and zero the whole block on success. -/
def calloc (heapBase : Nat) (nmemb size : Nat) (s : AllocState) : MRes :=
  let block_size := (nmemb * size) % WORD_MODULUS
  match malloc heapBase block_size s with
  | .ok (some p) s1 => .ok (some p) { s1 with data := zeroRange s1.data p block_size }
  | r => r

/-- Function `realloc` (lines 382-414): `NULL` behaves as `malloc`, size zero
as `free`; a request within the recorded size returns the block unchanged;
a growing request allocates a new block, copies the old contents, and frees
the old block, leaving it alone when the allocation fails. -/
def realloc (heapBase : Nat) (ptr : Option Nat) (size : Nat) (s : AllocState) : MRes :=
  match ptr with
  | none => malloc heapBase size s
  | some p =>
    if size = 0 then
      match freeOp (some p) s with
      | .ok s1 => .ok none s1
      | .ub => .ub
      | .fatal => .fatal
    else
      match Mem.find s.mem (BLOCK_TO_HEADER p) with
      | none => .ub
      | some h =>
        if size ≤ h.size then .ok (some p) s
        else
          match malloc heapBase size s with
          | .ok (some np) s1 =>
            -- re-read the old header's size for the copy, as the C code does
            match Mem.find s1.mem (BLOCK_TO_HEADER p) with
            | none => .ub
            | some h1 =>
              let s2 := { s1 with data := copyRange s1.data p np h1.size }
              match freeOp (some p) s2 with
              | .ok s3 => .ok (some np) s3
              | .ub => .ub
              | .fatal => .fatal
          | .ok none s1 => .ok none s1
          | .div => .div
          | .ub => .ub
          | .fatal => .fatal

/-- One call into the allocation API, with the argument values the caller
passes. -/
inductive Op where
  | alloc : Nat → Op
  | release : Option Nat → Op
  | zalloc : Nat → Nat → Op
  | resize : Option Nat → Nat → Op

/-- Execute one operation; `none` when the call does not complete normally
(divergence, undefined behaviour, or a fatal error). -/
def step (heapBase : Nat) (s : AllocState) : Op → Option AllocState
  | .alloc n => (malloc heapBase n s).st?
  | .release p => (freeOp p s).st?
  | .zalloc n m => (calloc heapBase n m s).st?
  | .resize p n => (realloc heapBase p n s).st?

/-- Execute a sequence of operations from a state, stopping at the first
call that does not complete. -/
def run (heapBase : Nat) : List Op → AllocState → Option AllocState
  | [], s => some s
  | op :: ops, s =>
    match step heapBase s op with
    | some s1 => run heapBase ops s1
    | none => none

/-!
Representation of the two intrusive doubly-linked lists.  `segB m p h l t`
says that starting from the pointer `h`, whose predecessor link should be
`p`, the chain of headers in `m` passes exactly through the addresses in
`l`, and the last `next` link of the segment is `t`.  A whole
NULL-terminated list from a head pointer is `segB m none head l none`.
-/
def segB (m : Mem) : Option Nat → Option Nat → List Nat → Option Nat → Bool
  | _, h, [], t => h == t
  | p, h, a :: rest, t =>
    h == some a &&
      match Mem.find m a with
      | none => false
      | some ha => ha.prev == p && segB m (some a) ha.next rest t

/-- Sizes of the headers along a chain, in scan order (used to state the
best-fit property; on a valid chain every lookup succeeds and the default
is never taken). -/
def chainPairs (m : Mem) (l : List Nat) : List (Nat × Nat) :=
  l.map fun a => (a, ((Mem.find m a).getD { next := none, prev := none, size := 0, allocated := false }).size)

/-!  Basic lemmas about the memory model.  -/

theorem Mem.find_modify (m : Mem) (a : Nat) (f : Header → Header) (x : Nat) :
    Mem.find (Mem.modify m a f) x = if x = a then (Mem.find m a).map f else Mem.find m x := by
  induction m with
  | nil => simp [Mem.find, Mem.modify]
  | cons kh rest ih =>
    obtain ⟨k, h⟩ := kh
    by_cases hka : k = a
    · subst hka
      by_cases hkx : k = x
      · subst hkx
        simp [Mem.find, Mem.modify]
      · simp [Mem.find, Mem.modify, hkx, (Ne.symm hkx : x ≠ k)]
    · by_cases hkx : k = x
      · subst hkx
        simp [Mem.find, Mem.modify, hka]
      · simp [Mem.find, Mem.modify, hka, hkx, ih]

theorem Mem.find_setNext (m : Mem) (a : Nat) (v : Option Nat) (x : Nat) :
    Mem.find (Mem.setNext m a v) x =
      if x = a then (Mem.find m a).map (fun h => { h with next := v }) else Mem.find m x :=
  Mem.find_modify m a _ x

theorem Mem.find_setPrev (m : Mem) (a : Nat) (v : Option Nat) (x : Nat) :
    Mem.find (Mem.setPrev m a v) x =
      if x = a then (Mem.find m a).map (fun h => { h with prev := v }) else Mem.find m x :=
  Mem.find_modify m a _ x

theorem Mem.find_setAllocated (m : Mem) (a : Nat) (v : Bool) (x : Nat) :
    Mem.find (Mem.setAllocated m a v) x =
      if x = a then (Mem.find m a).map (fun h => { h with allocated := v }) else Mem.find m x :=
  Mem.find_modify m a _ x

theorem Mem.find_write (m : Mem) (a : Nat) (h : Header) (x : Nat) :
    Mem.find (Mem.write m a h) x = if x = a then some h else Mem.find m x := by
  show (if a = x then some h else Mem.find m x) = _
  by_cases hxa : x = a
  · simp [hxa]
  · simp [hxa, Ne.symm hxa]

theorem Mem.keys_modify (m : Mem) (a : Nat) (f : Header → Header) :
    Mem.keys (Mem.modify m a f) = Mem.keys m := by
  induction m with
  | nil => rfl
  | cons kh rest ih =>
    obtain ⟨k, h⟩ := kh
    by_cases hka : k = a
    · simp [Mem.modify, Mem.keys, hka]
    · simp only [Mem.modify, if_neg hka]
      simpa [Mem.keys] using ih

theorem Mem.length_modify (m : Mem) (a : Nat) (f : Header → Header) :
    (Mem.modify m a f).length = m.length := by
  induction m with
  | nil => rfl
  | cons kh rest ih =>
    obtain ⟨k, h⟩ := kh
    by_cases hka : k = a <;> simp [Mem.modify, hka, ih]

theorem Mem.find_isSome_iff (m : Mem) (x : Nat) :
    (Mem.find m x).isSome = true ↔ x ∈ Mem.keys m := by
  induction m with
  | nil => simp [Mem.find, Mem.keys]
  | cons kh rest ih =>
    obtain ⟨k, h⟩ := kh
    by_cases hkx : k = x
    · subst hkx
      simp [Mem.find, Mem.keys]
    · simp only [Mem.find, if_neg hkx, Mem.keys, List.map_cons, List.mem_cons]
      rw [ih]
      constructor
      · exact fun hm => Or.inr hm
      · rintro (h1 | h2)
        · exact absurd h1.symm hkx
        · exact h2

theorem init_noop (heapBase : Nat) (s : AllocState) (h : s.start_addr ≠ 0) :
    init heapBase s = s := by
  simp [init, h]

/-!  Concrete states used to instantiate theorems with hypotheses.  -/

/-- An already-initialized empty heap region of 48 bytes starting at 16. -/
def tinyState : AllocState :=
  { mem := [], data := fun _ => 0, free_list_head := none, allocated_list_head := none,
    free_addr := 16, start_addr := 16, end_addr := 64 }

/-- An initialized heap with one allocated block of size 24 whose header
sits at 48 (block address 80), inside a small region that is almost full. -/
def oneBlockState : AllocState :=
  { mem := [(48, { next := none, prev := none, size := 24, allocated := true })],
    data := fun _ => 0,
    free_list_head := none, allocated_list_head := some 48,
    free_addr := 104, start_addr := 16, end_addr := 160 }

/-- An initialized heap with one free block of size 24 whose header sits at
16 (block address 48). -/
def oneFreeState : AllocState :=
  { mem := [(16, { next := none, prev := none, size := 24, allocated := false })],
    data := fun _ => 0,
    free_list_head := some 16, allocated_list_head := none,
    free_addr := 72, start_addr := 16, end_addr := 4096 }

/-- An initialized heap whose free list holds blocks of sizes 24, 19 and 32
in scan order (the example of the specification). -/
def threeFreeState : AllocState :=
  { mem := [(16, { next := some 96, prev := none, size := 24, allocated := false }),
            (96, { next := some 160, prev := some 16, size := 19, allocated := false }),
            (160, { next := none, prev := some 96, size := 32, allocated := false })],
    data := fun _ => 0,
    free_list_head := some 16, allocated_list_head := none,
    free_addr := 224, start_addr := 16, end_addr := 4096 }

/-!
Claim C3.  The claim states that `allocate(0)` always returns null with no
side effects at all.  The code calls `init()` before the `size == 0` check
(lines 151-156), so the very first call does change the heap-region state:
it records `start`, `end` and the bump cursor.  On an already-initialized
heap the claim holds.
-/

/-- Claim C3, counterexample: on the process-initial state, `allocate(0)`
returns null but initializes the heap region as a side effect: `start` and
the bump cursor change from 0 to the mapped base address. -/
theorem c3_allocate_zero_first_call_initializes :
    (malloc 4096 0 initialState).ret? = some none ∧
    (malloc 4096 0 initialState).st?.map AllocState.start_addr = some 4096 ∧
    (malloc 4096 0 initialState).st?.map AllocState.free_addr = some 4096 ∧
    initialState.start_addr = 0 ∧ initialState.free_addr = 0 :=
  ⟨rfl, rfl, rfl, rfl, rfl⟩

/-- Claim C3, amended: on an already-initialized heap (nonzero start bound),
`allocate(0)` returns null and the state — free list, allocated list, and
heap-region fields — is exactly unchanged. -/
theorem c3_allocate_zero_noop (heapBase : Nat) (s : AllocState) (h : s.start_addr ≠ 0) :
    malloc heapBase 0 s = .ok none s := by
  simp [malloc, init_noop heapBase s h]

/-- Witness for the amended claim C3 at a concrete initialized state. -/
theorem c3_allocate_zero_noop_witness :
    tinyState.start_addr ≠ 0 ∧ malloc 4096 0 tinyState = .ok none tinyState :=
  ⟨by decide, c3_allocate_zero_noop 4096 tinyState (by decide)⟩

/-!
Claim C4.  Releasing a non-null pointer whose recovered header is not
allocated hits the fatal double-free `ERROR` (lines 305-307); releasing a
null pointer does nothing (lines 297-299).
-/

/-- Claim C4: release of a pointer whose recovered header has
`allocated == false` raises the fatal double-release error (the process
terminates; there is no normal-return path), and release of null is a
no-op. -/
theorem c4_double_release_fatal (p : Nat) (s : AllocState) (h : Header)
    (hfind : Mem.find s.mem (BLOCK_TO_HEADER p) = some h)
    (hfree : h.allocated = false) :
    freeOp (some p) s = .fatal ∧ ∀ s2 : AllocState, freeOp none s2 = .ok s2 := by
  refine ⟨?_, fun s2 => rfl⟩
  simp [freeOp, hfind, hfree]

/-- Witness for claim C4: a concrete state holding one already-free block;
releasing its block pointer a second time is fatal. -/
theorem c4_double_release_fatal_witness :
    freeOp (some 48) oneFreeState = .fatal ∧ ∀ s2 : AllocState, freeOp none s2 = .ok s2 :=
  c4_double_release_fatal 48 oneFreeState
    { next := none, prev := none, size := 24, allocated := false } (by decide) (by decide)

/-!
Inversion helpers for `malloc`.
-/

/-- When the free-list scan finds no fitting block, `malloc` on an
initialized heap takes the bump path. -/
theorem malloc_no_fit (heapBase size : Nat) (s : AllocState) (c : Nat)
    (hinit : s.start_addr ≠ 0) (hsz : size ≠ 0)
    (hscan : scanLoop s.mem size (s.mem.length + 1) s.free_list_head none = .ok none c) :
    malloc heapBase size s = bumpPath s size := by
  simp only [malloc, init_noop heapBase s hinit]
  rw [if_neg hsz, hscan]

/-- Every non-null pointer `malloc` returns is a block address: a header
address plus the fixed header size.  In particular it is at least the
header size. -/
theorem malloc_ret_ge (heapBase size : Nat) (s : AllocState) (p : Nat) (s1 : AllocState)
    (hm : malloc heapBase size s = .ok (some p) s1) : sizeof_header_s ≤ p := by
  simp only [malloc] at hm
  split at hm
  · cases hm
  · split at hm
    · cases hm
    · cases hm
    · cases hm
    · split at hm
      · split at hm
        · cases hm
        · cases hm
          simp [HEADER_TO_BLOCK]
      · simp only [bumpPath] at hm
        split at hm
        · cases hm
        · cases hm
          simp [HEADER_TO_BLOCK]

/-- Adding and then removing the header offset is the identity on any
address that is at least the header size. -/
theorem roundtrip_of_ge (p : Nat) (h : sizeof_header_s ≤ p) :
    HEADER_TO_BLOCK (BLOCK_TO_HEADER p) = p := by
  unfold HEADER_TO_BLOCK BLOCK_TO_HEADER sizeof_header_s at *
  omega

/-!
Claim C6.  `realloc` with a non-null pointer and a positive size that does
not exceed the recorded block size returns the pointer unchanged and
touches nothing (lines 396-402).
-/

/-- Claim C6: a shrinking (or equal-size) resize returns the original
pointer and leaves the entire allocator state unchanged. -/
theorem c6_resize_shrink_noop (heapBase p size : Nat) (s : AllocState) (h : Header)
    (hfind : Mem.find s.mem (BLOCK_TO_HEADER p) = some h)
    (hpos : 0 < size) (hle : size ≤ h.size) :
    realloc heapBase (some p) size s = .ok (some p) s := by
  have hsz : size ≠ 0 := Nat.pos_iff_ne_zero.mp hpos
  simp [realloc, hsz, hfind, hle]

/-- Witness for claim C6: resizing a block of size 24 down to 20 returns
the same pointer and the same state. -/
theorem c6_resize_shrink_noop_witness :
    Mem.find oneBlockState.mem (BLOCK_TO_HEADER 80) =
      some { next := none, prev := none, size := 24, allocated := true } ∧
    realloc 4096 (some 80) 20 oneBlockState = .ok (some 80) oneBlockState :=
  ⟨by decide,
   c6_resize_shrink_noop 4096 80 20 oneBlockState
     { next := none, prev := none, size := 24, allocated := true }
     (by decide) (by decide) (by decide)⟩

/-!
Claim C9.  The header/block address conversions (lines 72-75) are mutually
inverse on every pointer the API returns.
-/

/-- Claim C9: for any pointer returned by allocate, zeroed-allocate or
resize, subtracting the fixed header size and adding it back yields the
original pointer, and the two conversions are mutually inverse (the
header-to-block direction is inverted exactly by block-to-header).  For
resize the argument pointer, when echoed back, is itself assumed to be a
block address (at least one header size into the heap), which holds for
every pointer the API hands out. -/
theorem c9_header_block_roundtrip :
    (∀ a : Nat, BLOCK_TO_HEADER (HEADER_TO_BLOCK a) = a) ∧
    (∀ heapBase size s p s1, malloc heapBase size s = .ok (some p) s1 →
        HEADER_TO_BLOCK (BLOCK_TO_HEADER p) = p) ∧
    (∀ heapBase n m s p s1, calloc heapBase n m s = .ok (some p) s1 →
        HEADER_TO_BLOCK (BLOCK_TO_HEADER p) = p) ∧
    (∀ heapBase ptr size s p s1, (∀ q, ptr = some q → sizeof_header_s ≤ q) →
        realloc heapBase ptr size s = .ok (some p) s1 →
        HEADER_TO_BLOCK (BLOCK_TO_HEADER p) = p) := by
  refine ⟨?_, ?_, ?_, ?_⟩
  · intro a
    unfold HEADER_TO_BLOCK BLOCK_TO_HEADER
    omega
  · intro heapBase size s p s1 hm
    exact roundtrip_of_ge p (malloc_ret_ge heapBase size s p s1 hm)
  · intro heapBase n m s p s1 hm
    simp only [calloc] at hm
    split at hm
    · cases hm
      exact roundtrip_of_ge _ (malloc_ret_ge _ _ _ _ _ (by assumption))
    · next hne =>
      exact roundtrip_of_ge p (malloc_ret_ge _ _ _ _ _ hm)
  · intro heapBase ptr size s p s1 hptr hm
    simp only [realloc] at hm
    split at hm
    · exact roundtrip_of_ge p (malloc_ret_ge _ _ _ _ _ hm)
    · next q =>
      split at hm
      · split at hm
        · cases hm
        · cases hm
        · cases hm
      · split at hm
        · cases hm
        · split at hm
          · cases hm
            exact roundtrip_of_ge _ (hptr _ rfl)
          · split at hm
            · split at hm
              · cases hm
              · split at hm
                · cases hm
                  exact roundtrip_of_ge _ (malloc_ret_ge _ _ _ _ _ (by assumption))
                · cases hm
                · cases hm
            · cases hm
            · cases hm
            · cases hm
            · cases hm

/-- Witness for claim C9: the round-trip at the concrete pointer returned
by the first allocation on a fresh heap. -/
theorem c9_header_block_roundtrip_witness :
    HEADER_TO_BLOCK (BLOCK_TO_HEADER 4144) = 4144 :=
  c9_header_block_roundtrip.2.1 4096 24 initialState 4144
    ((malloc 4096 24 initialState).st?.getD initialState) rfl

/-!
Claim C10.  On the bump path `malloc` first executes
`free_addr = free_addr + (16 - free_addr % 16)` (line 240): the cursor
advances by 1 to 16 bytes to the next 16-byte boundary (a full 16 when it
is already aligned), on failing calls as well, and the header — and hence
the returned block, one header size later — is 16-byte aligned.
-/

/-- Claim C10: on every bump-path call (no free block fits) the alignment
step moves the cursor forward by between 1 and 16 bytes onto a 16-byte
boundary, adding a full 16 when the cursor is already aligned; the cursor
of the resulting state has strictly increased whether or not the call
succeeds, a header is stored at the alignment boundary, and a returned
block address is one header size past it, hence also 16-byte aligned. -/
theorem c10_bump_path_alignment (heapBase size : Nat) (s : AllocState) (c : Nat)
    (hinit : s.start_addr ≠ 0) (hpos : 0 < size)
    (hscan : scanLoop s.mem size (s.mem.length + 1) s.free_list_head none = .ok none c) :
    (s.free_addr < s.free_addr + (16 - s.free_addr % 16) ∧
     s.free_addr + (16 - s.free_addr % 16) ≤ s.free_addr + 16 ∧
     (s.free_addr + (16 - s.free_addr % 16)) % 16 = 0 ∧
     (s.free_addr % 16 = 0 → s.free_addr + (16 - s.free_addr % 16) = s.free_addr + 16)) ∧
    (∀ r s1, malloc heapBase size s = .ok r s1 →
       s.free_addr < s1.free_addr ∧
       (Mem.find s1.mem (s.free_addr + (16 - s.free_addr % 16))).isSome = true ∧
       (∀ q, r = some q →
          q = HEADER_TO_BLOCK (s.free_addr + (16 - s.free_addr % 16)) ∧ q % 16 = 0)) := by
  have hmod : s.free_addr % 16 < 16 := Nat.mod_lt _ (by omega)
  refine ⟨⟨by omega, by omega, by omega, by omega⟩, ?_⟩
  intro r s1 hm
  rw [malloc_no_fit heapBase size s c hinit (Nat.pos_iff_ne_zero.mp hpos) hscan] at hm
  simp only [bumpPath] at hm
  have hfindA : ∀ (v : Option Nat),
      (Mem.find
        (match s.allocated_list_head with
         | none => Mem.write s.mem (s.free_addr + (16 - s.free_addr % 16))
             { next := s.allocated_list_head, prev := none, size := size, allocated := true }
         | some oa => Mem.setPrev
             (Mem.write s.mem (s.free_addr + (16 - s.free_addr % 16))
               { next := s.allocated_list_head, prev := none, size := size, allocated := true })
             oa v)
        (s.free_addr + (16 - s.free_addr % 16))).isSome = true := by
    intro v
    cases hal : s.allocated_list_head with
    | none => simp [Mem.find_write]
    | some oa =>
      rw [Mem.find_setPrev]
      by_cases hoa : s.free_addr + (16 - s.free_addr % 16) = oa
      · simp [hoa, Mem.find_write]
      · simp [hoa, Mem.find_write]
  split at hm
  · cases hm
    refine ⟨by simp; omega, ?_, ?_⟩
    · exact hfindA _
    · intro q hq
      cases hq
  · cases hm
    refine ⟨by simp [HEADER_TO_BLOCK]; omega, ?_, ?_⟩
    · exact hfindA _
    · intro q hq
      cases hq
      constructor
      · rfl
      · unfold HEADER_TO_BLOCK sizeof_header_s
        omega

/-- Witness for claim C10 at a concrete initialized state with an empty
free list and an unaligned cursor. -/
theorem c10_bump_path_alignment_witness :
    (tinyState.free_addr < tinyState.free_addr + (16 - tinyState.free_addr % 16) ∧
     tinyState.free_addr + (16 - tinyState.free_addr % 16) ≤ tinyState.free_addr + 16 ∧
     (tinyState.free_addr + (16 - tinyState.free_addr % 16)) % 16 = 0 ∧
     (tinyState.free_addr % 16 = 0 →
       tinyState.free_addr + (16 - tinyState.free_addr % 16) = tinyState.free_addr + 16)) ∧
    (∀ r s1, malloc 4096 5 tinyState = .ok r s1 →
       tinyState.free_addr < s1.free_addr ∧
       (Mem.find s1.mem (tinyState.free_addr + (16 - tinyState.free_addr % 16))).isSome = true ∧
       (∀ q, r = some q →
          q = HEADER_TO_BLOCK (tinyState.free_addr + (16 - tinyState.free_addr % 16)) ∧
          q % 16 = 0)) :=
  c10_bump_path_alignment 4096 5 tinyState 0 (by decide) (by decide) (by decide)

/-!
Claim C2.  The claim asserts that a failing bump-path allocation leaves the
bump cursor unchanged.  It does not: line 240 advances `free_addr` to the
alignment boundary before the bounds check, and the failure return does not
roll that back, so the cursor has moved forward by 1 to 16 bytes.  The rest
of the claim (null return, the phantom header spliced at the head of the
allocated list, marked allocated with the requested size) does hold.
-/

/-- Claim C2, counterexample: a concrete out-of-space bump call returns
null, yet the bump cursor has advanced (from 16 to the alignment boundary
32), so "the bump cursor has not been advanced by the call" is false. -/
theorem c2_oom_cursor_has_advanced :
    (malloc 4096 100 tinyState).ret? = some none ∧
    (malloc 4096 100 tinyState).st?.map AllocState.free_addr = some 32 ∧
    tinyState.free_addr = 16 :=
  ⟨rfl, rfl, rfl⟩

/-- Claim C2, amended: when the bump path runs out of space, `malloc`
returns null, the freshly written header is already the head of the
allocated list, marked allocated with the requested size and a cleared
`prev` link, the free list head is untouched — and the bump cursor has
advanced exactly to the 16-byte alignment boundary holding the phantom
header (a move of 1 to 16 bytes), not past it. -/
theorem c2_oom_phantom_header (heapBase size : Nat) (s : AllocState) (c : Nat)
    (hinit : s.start_addr ≠ 0) (hpos : 0 < size)
    (hscan : scanLoop s.mem size (s.mem.length + 1) s.free_list_head none = .ok none c)
    (hbound : ∀ a ∈ Mem.keys s.mem, a ≤ s.free_addr)
    (hallive : ∀ oa, s.allocated_list_head = some oa → oa ∈ Mem.keys s.mem)
    (hoom : s.end_addr < HEADER_TO_BLOCK (s.free_addr + (16 - s.free_addr % 16)) + size) :
    ∃ s1, malloc heapBase size s = .ok none s1 ∧
      s1.allocated_list_head = some (s.free_addr + (16 - s.free_addr % 16)) ∧
      Mem.find s1.mem (s.free_addr + (16 - s.free_addr % 16)) =
        some { next := s.allocated_list_head, prev := none, size := size, allocated := true } ∧
      s1.free_addr = s.free_addr + (16 - s.free_addr % 16) ∧
      s.free_addr < s1.free_addr ∧ s1.free_addr ≤ s.free_addr + 16 ∧
      s1.free_list_head = s.free_list_head := by
  have hmod : s.free_addr % 16 < 16 := Nat.mod_lt _ (by omega)
  rw [malloc_no_fit heapBase size s c hinit (Nat.pos_iff_ne_zero.mp hpos) hscan]
  simp only [bumpPath]
  rw [if_pos hoom]
  refine ⟨_, rfl, rfl, ?_, rfl, by simp only; omega, by simp only; omega, rfl⟩
  cases hal : s.allocated_list_head with
  | none => simp [Mem.find_write]
  | some oa =>
    have hoamem : oa ∈ Mem.keys s.mem := hallive oa hal
    have hoale : oa ≤ s.free_addr := hbound oa hoamem
    have hne : s.free_addr + (16 - s.free_addr % 16) ≠ oa := by omega
    rw [Mem.find_setPrev]
    simp [hne, Mem.find_write, hal]

/-- Witness for the amended claim C2 at the concrete out-of-space state. -/
theorem c2_oom_phantom_header_witness :
    ∃ s1, malloc 4096 100 tinyState = .ok none s1 ∧
      s1.allocated_list_head = some (tinyState.free_addr + (16 - tinyState.free_addr % 16)) ∧
      Mem.find s1.mem (tinyState.free_addr + (16 - tinyState.free_addr % 16)) =
        some { next := tinyState.allocated_list_head, prev := none, size := 100,
               allocated := true } ∧
      s1.free_addr = tinyState.free_addr + (16 - tinyState.free_addr % 16) ∧
      tinyState.free_addr < s1.free_addr ∧ s1.free_addr ≤ tinyState.free_addr + 16 ∧
      s1.free_list_head = tinyState.free_list_head :=
  c2_oom_phantom_header 4096 100 tinyState 0 (by decide) (by decide) (by decide)
    (by decide) (by decide) (by decide)

/-!
Claim C8.  `calloc` (lines 351-364) computes `nmemb * size` in `size_t`
arithmetic — wrapping, with no overflow check — hands the product to
`malloc`, and zero-fills the whole returned block on success.
-/

/-- Claim C8: zeroed allocation computes the total as the wrapping product
of its two arguments — no overflow check, the product is reduced modulo
`2 ^ 64` — behaves exactly as `malloc` of that total, and on a non-null
result returns a state whose block bytes are all zero across the whole
total, the rest of the state being exactly what that `malloc` call
produced. -/
theorem c8_calloc_wrapping_zeroed (heapBase nmemb size : Nat) (s : AllocState) :
    calloc heapBase nmemb size s =
      (match malloc heapBase ((nmemb * size) % WORD_MODULUS) s with
       | .ok (some p) s1 =>
           .ok (some p) { s1 with data := zeroRange s1.data p ((nmemb * size) % WORD_MODULUS) }
       | r => r) ∧
    (∀ p s1, malloc heapBase ((nmemb * size) % WORD_MODULUS) s = .ok (some p) s1 →
       ∃ s2, calloc heapBase nmemb size s = .ok (some p) s2 ∧
         (∀ a, p ≤ a → a < p + (nmemb * size) % WORD_MODULUS → s2.data a = 0) ∧
         s2.mem = s1.mem ∧ s2.free_list_head = s1.free_list_head ∧
         s2.allocated_list_head = s1.allocated_list_head ∧
         s2.free_addr = s1.free_addr ∧ s2.start_addr = s1.start_addr ∧
         s2.end_addr = s1.end_addr) := by
  constructor
  · rfl
  · intro p s1 hm
    refine ⟨{ s1 with data := zeroRange s1.data p ((nmemb * size) % WORD_MODULUS) },
      ?_, ?_, rfl, rfl, rfl, rfl, rfl, rfl⟩
    · simp only [calloc]
      rw [hm]
    · intro a ha1 ha2
      simp [zeroRange, ha1, ha2]

/-- Witness for claim C8: `calloc(2, 3)` on a fresh heap returns the block
at 4144 with six zeroed bytes. -/
theorem c8_calloc_wrapping_zeroed_witness :
    ∃ s2, calloc 4096 2 3 initialState = .ok (some 4144) s2 ∧
      (∀ a, 4144 ≤ a → a < 4144 + (2 * 3) % WORD_MODULUS → s2.data a = 0) ∧
      s2.mem = ((malloc 4096 ((2 * 3) % WORD_MODULUS) initialState).st?.getD initialState).mem ∧
      s2.free_list_head =
        ((malloc 4096 ((2 * 3) % WORD_MODULUS) initialState).st?.getD initialState).free_list_head ∧
      s2.allocated_list_head =
        ((malloc 4096 ((2 * 3) % WORD_MODULUS) initialState).st?.getD
          initialState).allocated_list_head ∧
      s2.free_addr =
        ((malloc 4096 ((2 * 3) % WORD_MODULUS) initialState).st?.getD initialState).free_addr ∧
      s2.start_addr =
        ((malloc 4096 ((2 * 3) % WORD_MODULUS) initialState).st?.getD initialState).start_addr ∧
      s2.end_addr =
        ((malloc 4096 ((2 * 3) % WORD_MODULUS) initialState).st?.getD initialState).end_addr :=
  (c8_calloc_wrapping_zeroed 4096 2 3 initialState).2 4144
    ((malloc 4096 ((2 * 3) % WORD_MODULUS) initialState).st?.getD initialState) rfl

/-!
Claim C7.  In the growing branch of `realloc` (lines 404-412), when the
inner `malloc` returns `NULL` the function returns `NULL` without copying
from or releasing the old block.
-/

/-- Claim C7: when a growing resize's internal allocation fails (returns
null), resize returns null and the old block is left intact: its header
still records the same size and is still marked allocated, and the block
contents are unmodified.  The final state is the one the failed `malloc`
left (its phantom-header side effect is `malloc`'s own, not resize's). -/
theorem c7_resize_grow_alloc_fail (heapBase p size : Nat) (s : AllocState) (h : Header)
    (s1 : AllocState)
    (hinit : s.start_addr ≠ 0)
    (hfind : Mem.find s.mem (BLOCK_TO_HEADER p) = some h)
    (halloc : h.allocated = true)
    (hgrow : h.size < size)
    (hbound : ∀ a ∈ Mem.keys s.mem, a ≤ s.free_addr)
    (hm : malloc heapBase size s = .ok none s1) :
    realloc heapBase (some p) size s = .ok none s1 ∧
    (∃ h1, Mem.find s1.mem (BLOCK_TO_HEADER p) = some h1 ∧
       h1.allocated = true ∧ h1.size = h.size) ∧
    s1.data = s.data := by
  have hsz : size ≠ 0 := by omega
  have hnle : ¬ size ≤ h.size := by omega
  refine ⟨by simp [realloc, hsz, hfind, hnle, hm], ?_⟩
  simp only [malloc, init_noop heapBase s hinit] at hm
  rw [if_neg hsz] at hm
  split at hm
  · cases hm
  · cases hm
  · cases hm
  · split at hm
    · split at hm
      · cases hm
      · cases hm
    · simp only [bumpPath] at hm
      split at hm
      · cases hm
        refine ⟨?_, rfl⟩
        have hlive : BLOCK_TO_HEADER p ∈ Mem.keys s.mem := by
          rw [← Mem.find_isSome_iff]
          simp [hfind]
        have hple : BLOCK_TO_HEADER p ≤ s.free_addr := hbound _ hlive
        have hmod : s.free_addr % 16 < 16 := Nat.mod_lt _ (by omega)
        have hneA : BLOCK_TO_HEADER p ≠ s.free_addr + (16 - s.free_addr % 16) := by omega
        cases hal : s.allocated_list_head with
        | none =>
          refine ⟨h, ?_, halloc, rfl⟩
          simp only
          rw [Mem.find_write, if_neg hneA, hfind]
        | some oa =>
          by_cases hpo : BLOCK_TO_HEADER p = oa
          · refine ⟨{ h with prev := some (s.free_addr + (16 - s.free_addr % 16)) },
              ?_, halloc, rfl⟩
            simp only
            rw [Mem.find_setPrev, if_pos hpo, ← hpo, Mem.find_write, if_neg hneA, hfind]
            rfl
          · refine ⟨h, ?_, halloc, rfl⟩
            simp only
            rw [Mem.find_setPrev, if_neg hpo, Mem.find_write, if_neg hneA, hfind]
      · cases hm

/-- Witness for claim C7: a growing resize of the one allocated block in a
nearly-full region; the inner allocation runs out of space and the old
block survives untouched. -/
theorem c7_resize_grow_alloc_fail_witness :
    realloc 4096 (some 80) 100 oneBlockState =
      .ok none ((malloc 4096 100 oneBlockState).st?.getD initialState) ∧
    (∃ h1, Mem.find ((malloc 4096 100 oneBlockState).st?.getD initialState).mem
        (BLOCK_TO_HEADER 80) = some h1 ∧ h1.allocated = true ∧ h1.size = 24) ∧
    ((malloc 4096 100 oneBlockState).st?.getD initialState).data = oneBlockState.data :=
  c7_resize_grow_alloc_fail 4096 80 100 oneBlockState
    { next := none, prev := none, size := 24, allocated := true }
    ((malloc 4096 100 oneBlockState).st?.getD initialState)
    (by decide) (by decide) (by decide) (by decide) (by decide) rfl

/-!
Claim C1.  The free-list scan of `malloc` (lines 162-190) picks the best
fit: the smallest free block whose size is at least the request,
first-found winning among equal sizes, and the walk stops as soon as the
candidate is an exact match.  We relate the heap walk to a pure scan over
the (address, size) pairs along the chain and characterize that scan.
-/

/-- Header value used as the `getD` default when reading sizes along a
chain; on a valid chain every read succeeds and it is never used. -/
def defaultHeader : Header := { next := none, prev := none, size := 0, allocated := false }

/-- Pure mirror of the free-list walk over the (address, size) pairs of the
chain: the same candidate update, the same exact-fit break, and the number
of visited entries. -/
def scanListC (size : Nat) : List (Nat × Nat) → Option (Nat × Nat) → Option (Nat × Nat) × Nat
  | [], best => (best, 0)
  | (a, sz) :: rest, best =>
    let best' : Option (Nat × Nat) :=
      match best with
      | none => if size ≤ sz then some (a, sz) else none
      | some (b, bs) => if size ≤ sz ∧ sz < bs then some (a, sz) else some (b, bs)
    match best' with
    | some (b, bs) =>
      if bs = size then (some (b, bs), 1)
      else
        let r := scanListC size rest (some (b, bs))
        (r.1, r.2 + 1)
    | none =>
      let r := scanListC size rest none
      (r.1, r.2 + 1)

/-- Declarative best fit, written from the specification: the first entry
holding the minimum among the sizes that can hold the request. -/
def firstMin (size : Nat) : List (Nat × Nat) → Option (Nat × Nat)
  | [] => none
  | q :: rest =>
    if size ≤ q.2 then
      match firstMin size rest with
      | none => some q
      | some r => if r.2 < q.2 then some r else some q
    else firstMin size rest

/-- Combine a running candidate with the best of the remaining entries,
keeping the candidate unless the remainder offers a strictly smaller fit. -/
def keepSmaller (q : Nat × Nat) : Option (Nat × Nat) → Option (Nat × Nat)
  | none => some q
  | some r => if r.2 < q.2 then some r else some q

theorem firstMin_fits (size : Nat) :
    ∀ (l : List (Nat × Nat)) (q : Nat × Nat), firstMin size l = some q →
      size ≤ q.2 ∧ q ∈ l := by
  intro l
  induction l with
  | nil => intro q hq; cases hq
  | cons x rest ih =>
    intro q hq
    by_cases hx : size ≤ x.2
    · rw [firstMin, if_pos hx] at hq
      cases hrest : firstMin size rest with
      | none =>
        rw [hrest] at hq
        cases hq
        exact ⟨hx, List.mem_cons_self _ _⟩
      | some r =>
        rw [hrest] at hq
        by_cases hlt : r.2 < x.2
        · simp only [if_pos hlt] at hq
          cases hq
          obtain ⟨h1, h2⟩ := ih _ hrest
          exact ⟨h1, List.mem_cons_of_mem _ h2⟩
        · simp only [if_neg hlt] at hq
          cases hq
          exact ⟨hx, List.mem_cons_self _ _⟩
    · rw [firstMin, if_neg hx] at hq
      obtain ⟨h1, h2⟩ := ih q hq
      exact ⟨h1, List.mem_cons_of_mem _ h2⟩

theorem firstMin_none (size : Nat) :
    ∀ (l : List (Nat × Nat)), firstMin size l = none →
      ∀ q ∈ l, ¬ size ≤ q.2 := by
  intro l
  induction l with
  | nil => intro _ q hq; cases hq
  | cons x rest ih =>
    intro hnone q hq
    by_cases hx : size ≤ x.2
    · rw [firstMin, if_pos hx] at hnone
      cases hrest : firstMin size rest with
      | none => rw [hrest] at hnone; cases hnone
      | some r =>
        rw [hrest] at hnone
        by_cases hlt : r.2 < x.2
        · simp only [if_pos hlt] at hnone; cases hnone
        · simp only [if_neg hlt] at hnone; cases hnone
    · rw [firstMin, if_neg hx] at hnone
      rcases List.mem_cons.mp hq with rfl | hmem
      · exact hx
      · exact ih hnone q hmem

theorem firstMin_min (size : Nat) :
    ∀ (l : List (Nat × Nat)) (q : Nat × Nat), firstMin size l = some q →
      ∀ p ∈ l, size ≤ p.2 → q.2 ≤ p.2 := by
  intro l
  induction l with
  | nil => intro q hq; cases hq
  | cons x rest ih =>
    intro q hq p hp hfit
    by_cases hx : size ≤ x.2
    · rw [firstMin, if_pos hx] at hq
      cases hrest : firstMin size rest with
      | none =>
        rw [hrest] at hq
        cases hq
        rcases List.mem_cons.mp hp with rfl | hmem
        · exact le_refl _
        · exact absurd hfit (firstMin_none size rest hrest p hmem)
      | some r =>
        rw [hrest] at hq
        by_cases hlt : r.2 < x.2
        · simp only [if_pos hlt] at hq
          cases hq
          rcases List.mem_cons.mp hp with rfl | hmem
          · exact Nat.le_of_lt hlt
          · exact ih _ hrest p hmem hfit
        · simp only [if_neg hlt] at hq
          cases hq
          rcases List.mem_cons.mp hp with rfl | hmem
          · exact le_refl _
          · exact le_trans (Nat.le_of_not_lt hlt) (ih _ hrest p hmem hfit)
    · rw [firstMin, if_neg hx] at hq
      rcases List.mem_cons.mp hp with rfl | hmem
      · exact absurd hfit hx
      · exact ih q hq p hmem hfit

theorem firstMin_split (size : Nat) :
    ∀ (l : List (Nat × Nat)) (q : Nat × Nat), firstMin size l = some q →
      ∃ l1 l2, l = l1 ++ q :: l2 ∧ ∀ p ∈ l1, ¬(size ≤ p.2 ∧ p.2 ≤ q.2) := by
  intro l
  induction l with
  | nil => intro q hq; cases hq
  | cons x rest ih =>
    intro q hq
    by_cases hx : size ≤ x.2
    · rw [firstMin, if_pos hx] at hq
      cases hrest : firstMin size rest with
      | none =>
        rw [hrest] at hq
        cases hq
        exact ⟨[], rest, rfl, by simp⟩
      | some r =>
        rw [hrest] at hq
        by_cases hlt : r.2 < x.2
        · simp only [if_pos hlt] at hq
          cases hq
          obtain ⟨l1, l2, heq, hprop⟩ := ih _ hrest
          refine ⟨x :: l1, l2, by simp [heq], ?_⟩
          intro p hp
          rcases List.mem_cons.mp hp with rfl | hmem
          · intro ⟨_, hle⟩
            omega
          · exact hprop p hmem
        · simp only [if_neg hlt] at hq
          cases hq
          exact ⟨[], rest, rfl, by simp⟩
    · rw [firstMin, if_neg hx] at hq
      obtain ⟨l1, l2, heq, hprop⟩ := ih q hq
      refine ⟨x :: l1, l2, by simp [heq], ?_⟩
      intro p hp
      rcases List.mem_cons.mp hp with rfl | hmem
      · intro ⟨hfit, _⟩
        exact hx hfit
      · exact hprop p hmem

theorem firstMin_isSome (size : Nat) (l : List (Nat × Nat))
    (h : ∃ q ∈ l, size ≤ q.2) : ∃ r, firstMin size l = some r := by
  cases hfm : firstMin size l with
  | none =>
    obtain ⟨q, hq, hfit⟩ := h
    exact absurd hfit (firstMin_none size l hfm q hq)
  | some r => exact ⟨r, rfl⟩

theorem scanListC_seed (size : Nat) :
    ∀ (l : List (Nat × Nat)) (b bs : Nat), bs ≠ size →
      (scanListC size l (some (b, bs))).1 = keepSmaller (b, bs) (firstMin size l) := by
  intro l
  induction l with
  | nil => intro b bs hbs; rfl
  | cons x rest ih =>
    obtain ⟨a, sz⟩ := x
    intro b bs hbs
    by_cases hfit : size ≤ sz
    · by_cases hlt : sz < bs
      · by_cases hsz : sz = size
        · have hlt2 : size < bs := by omega
          cases hrest : firstMin size rest with
          | none => simp [scanListC, hfit, hlt, firstMin, keepSmaller, hrest, hsz, hlt2]
          | some r =>
            have hr := (firstMin_fits size rest r hrest).1
            have hnr : ¬ r.2 < sz := by omega
            have hnr2 : ¬ r.2 < size := by omega
            simp [scanListC, hfit, hlt, firstMin, keepSmaller, hrest, hnr, hsz, hlt2, hnr2]
        · have lhs : (scanListC size ((a, sz) :: rest) (some (b, bs))).1
              = (scanListC size rest (some (a, sz))).1 := by
            simp [scanListC, hfit, hlt, hsz]
          rw [lhs, ih a sz hsz]
          cases hrest : firstMin size rest with
          | none => simp [keepSmaller, firstMin, hfit, hrest, hlt]
          | some r =>
            by_cases hrlt : r.2 < sz
            · have hrbs : r.2 < bs := lt_trans hrlt hlt
              simp [keepSmaller, firstMin, hfit, hrest, hrlt, hrbs]
            · simp [keepSmaller, firstMin, hfit, hrest, hrlt, hlt]
      · have hbs_le : bs ≤ sz := Nat.le_of_not_lt hlt
        have lhs : (scanListC size ((a, sz) :: rest) (some (b, bs))).1
            = (scanListC size rest (some (b, bs))).1 := by
          simp [scanListC, hfit, hlt, hbs]
        rw [lhs, ih b bs hbs]
        cases hrest : firstMin size rest with
        | none => simp [keepSmaller, firstMin, hfit, hrest, hlt]
        | some r =>
          by_cases hrlt : r.2 < sz
          · simp [keepSmaller, firstMin, hfit, hrest, hrlt]
          · have hnrbs : ¬ r.2 < bs := by omega
            simp [keepSmaller, firstMin, hfit, hrest, hrlt, hlt, hnrbs]
    · have lhs : (scanListC size ((a, sz) :: rest) (some (b, bs))).1
          = (scanListC size rest (some (b, bs))).1 := by
        simp [scanListC, hfit, hbs]
      rw [lhs, ih b bs hbs]
      simp [firstMin, hfit]

theorem scanListC_none (size : Nat) :
    ∀ (l : List (Nat × Nat)), (scanListC size l none).1 = firstMin size l := by
  intro l
  induction l with
  | nil => rfl
  | cons x rest ih =>
    obtain ⟨a, sz⟩ := x
    by_cases hfit : size ≤ sz
    · by_cases hsz : sz = size
      · cases hrest : firstMin size rest with
        | none => simp [scanListC, hfit, firstMin, hrest, hsz]
        | some r =>
          have hr := (firstMin_fits size rest r hrest).1
          have hnr : ¬ r.2 < sz := by omega
          have hnr2 : ¬ r.2 < size := by omega
          simp [scanListC, hfit, firstMin, hrest, hnr, hsz, hnr2]
      · have lhs : (scanListC size ((a, sz) :: rest) none).1
            = (scanListC size rest (some (a, sz))).1 := by
          simp [scanListC, hfit, hsz]
        rw [lhs, scanListC_seed size rest a sz hsz]
        cases hrest : firstMin size rest with
        | none => simp [keepSmaller, firstMin, hfit, hrest]
        | some r => simp [keepSmaller, firstMin, hfit, hrest]
    · have lhs : (scanListC size ((a, sz) :: rest) none).1
          = (scanListC size rest none).1 := by
        simp [scanListC, hfit]
      rw [lhs, ih]
      simp [firstMin, hfit]

theorem scanListC_count (size : Nat) :
    ∀ (l : List (Nat × Nat)) (best : Option (Nat × Nat)),
      (∀ b bs, best = some (b, bs) → size ≤ bs) →
      ∀ i, (hi : i < l.length) → (l.get ⟨i, hi⟩).2 = size →
      (scanListC size l best).2 ≤ i + 1 := by
  intro l
  induction l with
  | nil =>
    intro best hbest i hi
    exact absurd hi (Nat.not_lt_zero i)
  | cons x rest ih =>
    obtain ⟨a, sz⟩ := x
    intro best hbest i hi hexact
    cases best with
    | none =>
      by_cases hfit : size ≤ sz
      · by_cases hsz : sz = size
        · simp only [scanListC, if_pos hfit, if_pos hsz]
          omega
        · cases i with
          | zero => simp at hexact; exact absurd hexact hsz
          | succ j =>
            have hrec := ih (some (a, sz)) (by intro b bs hh; cases hh; exact hfit) j
              (by simpa using Nat.lt_of_succ_lt_succ hi) (by simpa using hexact)
            simp only [scanListC, if_pos hfit, if_neg hsz]
            omega
      · cases i with
        | zero =>
          simp at hexact
          exact absurd (hexact ▸ le_refl size) hfit
        | succ j =>
          have hrec := ih none (by intro b bs hh; cases hh) j
            (by simpa using Nat.lt_of_succ_lt_succ hi) (by simpa using hexact)
          simp only [scanListC, if_neg hfit]
          omega
    | some q =>
      obtain ⟨b, bs⟩ := q
      have hbs : size ≤ bs := hbest b bs rfl
      by_cases hC : size ≤ sz ∧ sz < bs
      · by_cases hsz : sz = size
        · simp only [scanListC, if_pos hC, if_pos hsz]
          omega
        · cases i with
          | zero => simp at hexact; exact absurd hexact hsz
          | succ j =>
            have hrec := ih (some (a, sz)) (by intro b' bs' hh; cases hh; exact hC.1) j
              (by simpa using Nat.lt_of_succ_lt_succ hi) (by simpa using hexact)
            simp only [scanListC, if_pos hC, if_neg hsz]
            omega
      · by_cases hbsz : bs = size
        · simp only [scanListC, if_neg hC, if_pos hbsz]
          omega
        · cases i with
          | zero =>
            simp at hexact
            rw [hexact] at hC
            have hnlt : ¬ size < bs := fun hh => hC ⟨le_refl _, hh⟩
            omega
          | succ j =>
            have hrec := ih (some (b, bs)) (by intro b' bs' hh; cases hh; exact hbs) j
              (by simpa using Nat.lt_of_succ_lt_succ hi) (by simpa using hexact)
            simp only [scanListC, if_neg hC, if_neg hbsz]
            omega

theorem scanLoop_sim (m : Mem) (size : Nat) :
    ∀ (l : List Nat) (p hd : Option Nat) (best : Option (Nat × Nat)) (fuel : Nat),
      segB m p hd l none = true →
      (∀ a ∈ l, ((Mem.find m a).getD defaultHeader).allocated = false) →
      l.length < fuel →
      scanLoop m size fuel hd best =
        .ok (scanListC size (chainPairs m l) best).1 (scanListC size (chainPairs m l) best).2 := by
  intro l
  induction l with
  | nil =>
    intro p hd best fuel hseg hfree hlen
    have hhd : hd = none := by simpa [segB] using hseg
    subst hhd
    cases fuel with
    | zero => exact absurd hlen (by omega)
    | succ f => rfl
  | cons a rest ih =>
    intro p hd best fuel hseg hfree hlen
    simp only [segB, Bool.and_eq_true, beq_iff_eq] at hseg
    obtain ⟨hhd, hmatch⟩ := hseg
    subst hhd
    cases hfa : Mem.find m a with
    | none => rw [hfa] at hmatch; cases hmatch
    | some ha =>
      rw [hfa] at hmatch
      simp only [Bool.and_eq_true, beq_iff_eq] at hmatch
      obtain ⟨hprev, hrest⟩ := hmatch
      have hafree : ha.allocated = false := by
        have hh := hfree a (List.mem_cons_self _ _)
        rw [hfa] at hh
        simpa using hh
      cases fuel with
      | zero => exact absurd hlen (by omega)
      | succ f =>
        have hlen2 : rest.length < f := by
          simp only [List.length_cons] at hlen
          omega
        have hfree2 : ∀ x ∈ rest, ((Mem.find m x).getD defaultHeader).allocated = false :=
          fun x hx => hfree x (List.mem_cons_of_mem _ hx)
        have ihr := fun b => ih (some a) ha.next b f hrest hfree2 hlen2
        have hcp : chainPairs m (a :: rest) = (a, ha.size) :: chainPairs m rest := by
          simp [chainPairs, hfa]
        rw [hcp]
        simp only [scanLoop, hfa, hafree]
        cases best with
        | none =>
          by_cases hfit : size ≤ ha.size
          · by_cases hsz : ha.size = size
            · simp only [scanListC, if_pos hfit, if_pos hsz]
              rfl
            · simp only [scanListC, if_pos hfit, if_neg hsz]
              rw [ihr (some (a, ha.size))]
              rfl
          · simp only [scanListC, if_neg hfit]
            rw [ihr none]
            rfl
        | some q =>
          obtain ⟨b, bs⟩ := q
          by_cases hC : size ≤ ha.size ∧ ha.size < bs
          · by_cases hsz : ha.size = size
            · simp only [scanListC, if_pos hC, if_pos hsz]
              rfl
            · simp only [scanListC, if_pos hC, if_neg hsz]
              rw [ihr (some (a, ha.size))]
              rfl
          · by_cases hbsz : bs = size
            · simp only [scanListC, if_neg hC, if_pos hbsz]
              rfl
            · simp only [scanListC, if_neg hC, if_neg hbsz]
              rw [ihr (some (b, bs))]
              rfl

/-- Claim C1: on a well-formed free list (the chain of addresses `fl`, all
of whose headers are unallocated), the scan of `malloc` finishes and agrees
with the pure scan of the (address, size) pairs; when some free block can
hold the request, the pure scan's choice exists, lies on the chain, fits,
is no larger than every fitting block, and no block before it both fits and
is as small (first-found wins among equal sizes); and the number of visited
headers stops at the first exact-size match. -/
theorem c1_best_fit_scan (m : Mem) (head : Option Nat) (fl : List Nat) (size : Nat)
    (hrep : segB m none head fl none = true)
    (hfree : ∀ a ∈ fl, ((Mem.find m a).getD defaultHeader).allocated = false)
    (hlen : fl.length ≤ m.length)
    (hpos : 0 < size) :
    scanLoop m size (m.length + 1) head none =
      .ok (scanListC size (chainPairs m fl) none).1 (scanListC size (chainPairs m fl) none).2 ∧
    ((∃ q ∈ chainPairs m fl, size ≤ q.2) →
       ∃ b bs, (scanListC size (chainPairs m fl) none).1 = some (b, bs) ∧
         ∃ l1 l2, chainPairs m fl = l1 ++ (b, bs) :: l2 ∧ size ≤ bs ∧
           (∀ q ∈ chainPairs m fl, size ≤ q.2 → bs ≤ q.2) ∧
           (∀ q ∈ l1, ¬(size ≤ q.2 ∧ q.2 ≤ bs))) ∧
    (∀ i, (hi : i < (chainPairs m fl).length) → ((chainPairs m fl).get ⟨i, hi⟩).2 = size →
       (scanListC size (chainPairs m fl) none).2 ≤ i + 1) := by
  refine ⟨?_, ?_, ?_⟩
  · exact scanLoop_sim m size fl none head none (m.length + 1) hrep hfree (by omega)
  · intro hex
    obtain ⟨r, hfm⟩ := firstMin_isSome size (chainPairs m fl) hex
    obtain ⟨b, bs⟩ := r
    refine ⟨b, bs, ?_, ?_⟩
    · rw [scanListC_none, hfm]
    · obtain ⟨l1, l2, heq, hpr⟩ := firstMin_split size _ _ hfm
      exact ⟨l1, l2, heq, (firstMin_fits size _ _ hfm).1,
        fun q hq hfit => firstMin_min size _ _ hfm q hq hfit, hpr⟩
  · intro i hi hex
    exact scanListC_count size _ none (by intro b bs hh; cases hh) i hi hex

/-- Witness for claim C1 on the specification's example free list, with
blocks of sizes 24, 19 and 32 and a request for 20. -/
theorem c1_best_fit_scan_witness :
    scanLoop threeFreeState.mem 20 (threeFreeState.mem.length + 1)
        threeFreeState.free_list_head none =
      .ok (scanListC 20 (chainPairs threeFreeState.mem [16, 96, 160]) none).1
        (scanListC 20 (chainPairs threeFreeState.mem [16, 96, 160]) none).2 ∧
    ((∃ q ∈ chainPairs threeFreeState.mem [16, 96, 160], 20 ≤ q.2) →
       ∃ b bs, (scanListC 20 (chainPairs threeFreeState.mem [16, 96, 160]) none).1 =
           some (b, bs) ∧
         ∃ l1 l2, chainPairs threeFreeState.mem [16, 96, 160] = l1 ++ (b, bs) :: l2 ∧
           20 ≤ bs ∧
           (∀ q ∈ chainPairs threeFreeState.mem [16, 96, 160], 20 ≤ q.2 → bs ≤ q.2) ∧
           (∀ q ∈ l1, ¬(20 ≤ q.2 ∧ q.2 ≤ bs))) ∧
    (∀ i, (hi : i < (chainPairs threeFreeState.mem [16, 96, 160]).length) →
       ((chainPairs threeFreeState.mem [16, 96, 160]).get ⟨i, hi⟩).2 = 20 →
       (scanListC 20 (chainPairs threeFreeState.mem [16, 96, 160]) none).2 ≤ i + 1) :=
  c1_best_fit_scan threeFreeState.mem threeFreeState.free_list_head [16, 96, 160] 20
    (by decide) (by decide) (by decide) (by decide)

/-!
Infrastructure for claim C5: structural lemmas about `segB` chains.
-/

/-- Predecessor seed for the part of a chain that follows the segment `l`:
the last address of `l`, or the seed `p` in front of `l` when `l` is
empty. -/
def seedAfter (p : Option Nat) (l : List Nat) : Option Nat :=
  match l.getLast? with
  | none => p
  | some a => some a

theorem seedAfter_cons (p : Option Nat) (c : Nat) (l : List Nat) :
    seedAfter p (c :: l) = seedAfter (some c) l := by
  cases l with
  | nil => simp [seedAfter]
  | cons d l2 =>
    cases hgl : (d :: l2).getLast? with
    | none =>
      rw [List.getLast?_eq_none_iff] at hgl
      cases hgl
    | some a => simp [seedAfter, List.getLast?_cons_cons, hgl]

theorem segB_nil_iff (m : Mem) (p h t : Option Nat) :
    segB m p h [] t = true ↔ h = t := by
  simp [segB]

theorem segB_cons_iff (m : Mem) (p h t : Option Nat) (a : Nat) (l : List Nat) :
    segB m p h (a :: l) t = true ↔
      h = some a ∧ ∃ ha, Mem.find m a = some ha ∧ ha.prev = p ∧
        segB m (some a) ha.next l t = true := by
  cases hfa : Mem.find m a with
  | none => simp [segB, hfa]
  | some ha => simp [segB, hfa]

theorem segB_congr (m m2 : Mem) (l : List Nat) :
    ∀ (p h t : Option Nat), (∀ x ∈ l, Mem.find m2 x = Mem.find m x) →
      segB m p h l t = true → segB m2 p h l t = true := by
  induction l with
  | nil => intro p h t _ hs; exact hs
  | cons a rest ih =>
    intro p h t hpt hs
    rw [segB_cons_iff] at hs ⊢
    obtain ⟨hh, ha, hfa, hp, hrest⟩ := hs
    exact ⟨hh, ha, by rw [hpt a (List.mem_cons_self _ _), hfa], hp,
      ih _ _ _ (fun x hx => hpt x (List.mem_cons_of_mem _ hx)) hrest⟩

theorem segB_append_iff (m : Mem) (l1 : List Nat) :
    ∀ (l2 : List Nat) (p h t : Option Nat),
      segB m p h (l1 ++ l2) t = true ↔
        ∃ h2, segB m p h l1 h2 = true ∧ segB m (seedAfter p l1) h2 l2 t = true := by
  induction l1 with
  | nil =>
    intro l2 p h t
    constructor
    · intro hs
      exact ⟨h, (segB_nil_iff m p h h).mpr rfl, hs⟩
    · rintro ⟨h2, h1, hs⟩
      rw [segB_nil_iff] at h1
      rw [List.nil_append]
      rw [← h1] at hs
      exact hs
  | cons a l1x ih =>
    intro l2 p h t
    rw [List.cons_append, segB_cons_iff, seedAfter_cons]
    constructor
    · rintro ⟨hh, ha, hfa, hp, hrest⟩
      rw [ih] at hrest
      obtain ⟨h2, hseg1, hseg2⟩ := hrest
      exact ⟨h2, by rw [segB_cons_iff]; exact ⟨hh, ha, hfa, hp, hseg1⟩, hseg2⟩
    · rintro ⟨h2, hseg1, hseg2⟩
      rw [segB_cons_iff] at hseg1
      obtain ⟨hh, ha, hfa, hp, hseg1x⟩ := hseg1
      exact ⟨hh, ha, hfa, hp, (ih _ _ _ _).mpr ⟨h2, hseg1x, hseg2⟩⟩

theorem segB_find (m : Mem) (l : List Nat) :
    ∀ (p h t : Option Nat), segB m p h l t = true →
      ∀ a ∈ l, ∃ ha, Mem.find m a = some ha := by
  induction l with
  | nil => intro p h t _ a haa; cases haa
  | cons c rest ih =>
    intro p h t hs a haa
    rw [segB_cons_iff] at hs
    obtain ⟨hh, hc, hfc, hp, hrest⟩ := hs
    rcases List.mem_cons.mp haa with rfl | hmem
    · exact ⟨hc, hfc⟩
    · exact ih _ _ _ hrest a hmem

theorem segB_reseed (m m2 : Mem) (p p2 : Option Nat) (c : Nat) (l : List Nat) (t : Option Nat)
    (hseg : segB m p (some c) (c :: l) t = true)
    (hc : Mem.find m2 c = (Mem.find m c).map fun hh => { hh with prev := p2 })
    (hrest : ∀ x ∈ l, Mem.find m2 x = Mem.find m x) :
    segB m2 p2 (some c) (c :: l) t = true := by
  rw [segB_cons_iff] at hseg ⊢
  obtain ⟨_, ha, hfa, hp, hrestseg⟩ := hseg
  refine ⟨rfl, { ha with prev := p2 }, by rw [hc, hfa]; rfl, rfl, ?_⟩
  exact segB_congr m m2 l _ _ _ hrest hrestseg

theorem segB_retarget (m m2 : Mem) (l : List Nat) :
    ∀ (p h t t2 : Option Nat) (pa : Nat),
      segB m p h l t = true → l.getLast? = some pa → l.Nodup →
      Mem.find m2 pa = (Mem.find m pa).map (fun hh => { hh with next := t2 }) →
      (∀ x ∈ l, x ≠ pa → Mem.find m2 x = Mem.find m x) →
      segB m2 p h l t2 = true := by
  induction l with
  | nil =>
    intro p h t t2 pa _ hlast
    cases hlast
  | cons c lx ih =>
    intro p h t t2 pa hseg hlast hnd hpa hrest
    rw [segB_cons_iff] at hseg
    obtain ⟨hh, ha, hfa, hp, hsegx⟩ := hseg
    cases lx with
    | nil =>
      have hpac : c = pa := by
        rw [List.getLast?_singleton] at hlast
        exact (Option.some.injEq _ _).mp hlast
      subst hpac
      rw [segB_nil_iff] at hsegx
      rw [segB_cons_iff]
      refine ⟨hh, { ha with next := t2 }, by rw [hpa, hfa]; rfl, hp, ?_⟩
      exact (segB_nil_iff m2 (some c) t2 t2).mpr rfl
    | cons d lxx =>
      have hlast2 : (d :: lxx).getLast? = some pa := by
        rwa [List.getLast?_cons_cons] at hlast
      have hcpa : c ≠ pa := by
        intro hcc
        subst hcc
        exact (List.nodup_cons.mp hnd).1 (List.mem_of_mem_getLast? hlast2)
      rw [segB_cons_iff]
      refine ⟨hh, ha, by rw [hrest c (List.mem_cons_self _ _) hcpa, hfa], hp, ?_⟩
      exact ih _ _ _ _ _ hsegx hlast2 (List.nodup_cons.mp hnd).2 hpa
        (fun x hx hxpa => hrest x (List.mem_cons_of_mem _ hx) hxpa)

theorem segB_head (m : Mem) (p : Option Nat) (l : List Nat) (oa : Nat)
    (hseg : segB m p (some oa) l none = true) : ∃ lx, l = oa :: lx := by
  cases l with
  | nil =>
    rw [segB_nil_iff] at hseg
    cases hseg
  | cons c lx =>
    rw [segB_cons_iff] at hseg
    obtain ⟨hh, _⟩ := hseg
    cases hh
    exact ⟨lx, rfl⟩

theorem segB_next_prev (m : Mem) (h : Option Nat) (l : List Nat)
    (hseg : segB m none h l none = true) (a : Nat) (hal : a ∈ l) (ha : Header)
    (hfind : Mem.find m a = some ha) (b : Nat) (hnext : ha.next = some b) :
    ∃ hb2, Mem.find m b = some hb2 ∧ hb2.prev = some a := by
  obtain ⟨l1, l2, rfl⟩ := List.append_of_mem hal
  rw [segB_append_iff] at hseg
  obtain ⟨h2, hseg1, hseg2⟩ := hseg
  rw [segB_cons_iff] at hseg2
  obtain ⟨hh2, hax, hfax, hpx, hsegx⟩ := hseg2
  rw [hfind] at hfax
  cases hfax
  cases l2 with
  | nil =>
    rw [segB_nil_iff] at hsegx
    rw [hnext] at hsegx
    cases hsegx
  | cons c l2x =>
    rw [segB_cons_iff] at hsegx
    obtain ⟨hhc, hc, hfc, hpc, _⟩ := hsegx
    rw [hnext] at hhc
    cases hhc
    exact ⟨hc, hfc, hpc⟩

theorem nodup_length_le (l : List Nat) (m : Mem) (hnd : l.Nodup)
    (hsub : ∀ a ∈ l, a ∈ Mem.keys m) : l.length ≤ m.length := by
  calc l.length = l.toFinset.card := (List.toFinset_card_of_nodup hnd).symm
    _ ≤ (Mem.keys m).toFinset.card := by
        refine Finset.card_le_card ?_
        intro a hc
        rw [List.mem_toFinset] at hc ⊢
        exact hsub a hc
    _ ≤ (Mem.keys m).length := List.toFinset_card_le _
    _ = m.length := by simp [Mem.keys]

theorem reusePath_find_untouched (s : AllocState) (b : Nat) (hb : Header) (x : Nat)
    (hxb : x ≠ b)
    (hxp : ∀ pa, hb.prev = some pa → x ≠ pa)
    (hxn : ∀ na, hb.next = some na → x ≠ na)
    (hxo : ∀ oa, s.allocated_list_head = some oa → x ≠ oa) :
    Mem.find (reusePath s b hb).mem x = Mem.find s.mem x := by
  cases hp : hb.prev with
  | none =>
    cases hn : hb.next with
    | none =>
      cases ho : s.allocated_list_head with
      | none =>
        simp [reusePath, hp, hn, ho, Mem.find_setNext, Mem.find_setPrev, Mem.find_setAllocated, hxb]
      | some oa =>
        simp [reusePath, hp, hn, ho, Mem.find_setNext, Mem.find_setPrev, Mem.find_setAllocated, hxb, hxo oa ho]
    | some na =>
      cases ho : s.allocated_list_head with
      | none =>
        simp [reusePath, hp, hn, ho, Mem.find_setNext, Mem.find_setPrev, Mem.find_setAllocated, hxb, hxn na hn]
      | some oa =>
        simp [reusePath, hp, hn, ho, Mem.find_setNext, Mem.find_setPrev, Mem.find_setAllocated, hxb, hxn na hn, hxo oa ho]
  | some pa =>
    cases hn : hb.next with
    | none =>
      cases ho : s.allocated_list_head with
      | none =>
        simp [reusePath, hp, hn, ho, Mem.find_setNext, Mem.find_setPrev, Mem.find_setAllocated, hxb, hxp pa hp]
      | some oa =>
        simp [reusePath, hp, hn, ho, Mem.find_setNext, Mem.find_setPrev, Mem.find_setAllocated, hxb, hxp pa hp, hxo oa ho]
    | some na =>
      cases ho : s.allocated_list_head with
      | none =>
        simp [reusePath, hp, hn, ho, Mem.find_setNext, Mem.find_setPrev, Mem.find_setAllocated, hxb, hxp pa hp, hxn na hn]
      | some oa =>
        simp [reusePath, hp, hn, ho, Mem.find_setNext, Mem.find_setPrev, Mem.find_setAllocated, hxb, hxp pa hp, hxn na hn, hxo oa ho]

theorem reusePath_find_b (s : AllocState) (b : Nat) (hb : Header)
    (hfb : Mem.find s.mem b = some hb)
    (hbp : ∀ pa, hb.prev = some pa → b ≠ pa)
    (hbn : ∀ na, hb.next = some na → b ≠ na)
    (hbo : ∀ oa, s.allocated_list_head = some oa → b ≠ oa) :
    Mem.find (reusePath s b hb).mem b =
      some { next := s.allocated_list_head, prev := none, size := hb.size,
             allocated := true } := by
  cases hp : hb.prev with
  | none =>
    cases hn : hb.next with
    | none =>
      cases ho : s.allocated_list_head with
      | none =>
        simp [reusePath, hp, hn, ho, Mem.find_setNext, Mem.find_setPrev, Mem.find_setAllocated, hfb]
      | some oa =>
        simp [reusePath, hp, hn, ho, Mem.find_setNext, Mem.find_setPrev, Mem.find_setAllocated, hfb, hbo oa ho]
    | some na =>
      cases ho : s.allocated_list_head with
      | none =>
        simp [reusePath, hp, hn, ho, Mem.find_setNext, Mem.find_setPrev, Mem.find_setAllocated, hfb, hbn na hn]
      | some oa =>
        simp [reusePath, hp, hn, ho, Mem.find_setNext, Mem.find_setPrev, Mem.find_setAllocated, hfb, hbn na hn, hbo oa ho]
  | some pa =>
    cases hn : hb.next with
    | none =>
      cases ho : s.allocated_list_head with
      | none =>
        simp [reusePath, hp, hn, ho, Mem.find_setNext, Mem.find_setPrev, Mem.find_setAllocated, hfb, hbp pa hp]
      | some oa =>
        simp [reusePath, hp, hn, ho, Mem.find_setNext, Mem.find_setPrev, Mem.find_setAllocated, hfb, hbp pa hp, hbo oa ho]
    | some na =>
      cases ho : s.allocated_list_head with
      | none =>
        simp [reusePath, hp, hn, ho, Mem.find_setNext, Mem.find_setPrev, Mem.find_setAllocated, hfb, hbp pa hp, hbn na hn]
      | some oa =>
        simp [reusePath, hp, hn, ho, Mem.find_setNext, Mem.find_setPrev, Mem.find_setAllocated, hfb, hbp pa hp, hbn na hn, hbo oa ho]

theorem reusePath_find_pa (s : AllocState) (b : Nat) (hb : Header) (pa : Nat)
    (hp : hb.prev = some pa)
    (hpb : pa ≠ b)
    (hpn : ∀ na, hb.next = some na → pa ≠ na)
    (hpo : ∀ oa, s.allocated_list_head = some oa → pa ≠ oa) :
    Mem.find (reusePath s b hb).mem pa =
      (Mem.find s.mem pa).map fun hh => { hh with next := hb.next } := by
  cases hn : hb.next with
  | none =>
    cases ho : s.allocated_list_head with
    | none =>
      simp [reusePath, hp, hn, ho, Mem.find_setNext, Mem.find_setPrev, Mem.find_setAllocated, hpb]
    | some oa =>
      simp [reusePath, hp, hn, ho, Mem.find_setNext, Mem.find_setPrev, Mem.find_setAllocated, hpb, hpo oa ho]
  | some na =>
    cases ho : s.allocated_list_head with
    | none =>
      simp [reusePath, hp, hn, ho, Mem.find_setNext, Mem.find_setPrev, Mem.find_setAllocated, hpb, hpn na hn]
    | some oa =>
      simp [reusePath, hp, hn, ho, Mem.find_setNext, Mem.find_setPrev, Mem.find_setAllocated, hpb, hpn na hn, hpo oa ho]

theorem reusePath_find_na (s : AllocState) (b : Nat) (hb : Header) (na : Nat)
    (hn : hb.next = some na)
    (hnb : na ≠ b)
    (hnp : ∀ pa, hb.prev = some pa → na ≠ pa)
    (hno : ∀ oa, s.allocated_list_head = some oa → na ≠ oa) :
    Mem.find (reusePath s b hb).mem na =
      (Mem.find s.mem na).map fun hh => { hh with prev := hb.prev } := by
  cases hp : hb.prev with
  | none =>
    cases ho : s.allocated_list_head with
    | none =>
      simp [reusePath, hp, hn, ho, Mem.find_setNext, Mem.find_setPrev, Mem.find_setAllocated, hnb]
    | some oa =>
      simp [reusePath, hp, hn, ho, Mem.find_setNext, Mem.find_setPrev, Mem.find_setAllocated, hnb, hno oa ho]
  | some pa =>
    cases ho : s.allocated_list_head with
    | none =>
      simp [reusePath, hp, hn, ho, Mem.find_setNext, Mem.find_setPrev, Mem.find_setAllocated, hnb, hnp pa hp]
    | some oa =>
      simp [reusePath, hp, hn, ho, Mem.find_setNext, Mem.find_setPrev, Mem.find_setAllocated, hnb, hnp pa hp, hno oa ho]

theorem reusePath_find_oa (s : AllocState) (b : Nat) (hb : Header) (oa : Nat)
    (ho : s.allocated_list_head = some oa)
    (hob : oa ≠ b)
    (hop : ∀ pa, hb.prev = some pa → oa ≠ pa)
    (hon : ∀ na, hb.next = some na → oa ≠ na) :
    Mem.find (reusePath s b hb).mem oa =
      (Mem.find s.mem oa).map fun hh => { hh with prev := some b } := by
  cases hp : hb.prev with
  | none =>
    cases hn : hb.next with
    | none =>
      simp [reusePath, hp, hn, ho, Mem.find_setNext, Mem.find_setPrev, Mem.find_setAllocated, hob]
    | some na =>
      simp [reusePath, hp, hn, ho, Mem.find_setNext, Mem.find_setPrev, Mem.find_setAllocated, hob, hon na hn]
  | some pa =>
    cases hn : hb.next with
    | none =>
      simp [reusePath, hp, hn, ho, Mem.find_setNext, Mem.find_setPrev, Mem.find_setAllocated, hob, hop pa hp]
    | some na =>
      simp [reusePath, hp, hn, ho, Mem.find_setNext, Mem.find_setPrev, Mem.find_setAllocated, hob, hop pa hp, hon na hn]

theorem reusePath_alh (s : AllocState) (b : Nat) (hb : Header) :
    (reusePath s b hb).allocated_list_head = some b := by
  cases hp : hb.prev <;> cases hn : hb.next <;> cases ho : s.allocated_list_head <;>
    simp [reusePath, hp, hn, ho]

theorem reusePath_flh_none (s : AllocState) (b : Nat) (hb : Header) (hp : hb.prev = none) :
    (reusePath s b hb).free_list_head = hb.next := by
  cases hn : hb.next <;> cases ho : s.allocated_list_head <;>
    simp [reusePath, hp, hn, ho]

theorem reusePath_flh_some (s : AllocState) (b : Nat) (hb : Header) (pa : Nat)
    (hp : hb.prev = some pa) :
    (reusePath s b hb).free_list_head = s.free_list_head := by
  cases hn : hb.next <;> cases ho : s.allocated_list_head <;>
    simp [reusePath, hp, hn, ho]

theorem reusePath_scalars (s : AllocState) (b : Nat) (hb : Header) :
    (reusePath s b hb).free_addr = s.free_addr ∧
    (reusePath s b hb).start_addr = s.start_addr ∧
    (reusePath s b hb).end_addr = s.end_addr ∧
    (reusePath s b hb).data = s.data := by
  cases hp : hb.prev <;> cases hn : hb.next <;> cases ho : s.allocated_list_head <;>
    simp [reusePath, hp, hn, ho]

theorem reusePath_keys (s : AllocState) (b : Nat) (hb : Header) :
    Mem.keys (reusePath s b hb).mem = Mem.keys s.mem := by
  cases hp : hb.prev <;> cases hn : hb.next <;> cases ho : s.allocated_list_head <;>
    simp [reusePath, hp, hn, ho, Mem.setNext, Mem.setPrev, Mem.setAllocated, Mem.keys_modify]

/-!
The list invariant of the specification, tied to explicit chain listings.
-/

/-- Invariant relating a state to explicit address listings `fl` and `al`
of its free and allocated chains: both chains are well-formed and
duplicate-free, no address is on both, every stored header is on one of
them, flags match list membership, every stored header lies at or below the
bump cursor, and an uninitialized state is empty. -/
structure InvData (s : AllocState) (fl al : List Nat) : Prop where
  hfl : segB s.mem none s.free_list_head fl none = true
  hal : segB s.mem none s.allocated_list_head al none = true
  ndfl : fl.Nodup
  ndal : al.Nodup
  disj : ∀ a ∈ fl, a ∉ al
  cover : ∀ a ∈ Mem.keys s.mem, a ∈ fl ∨ a ∈ al
  flagF : ∀ a ∈ fl, ((Mem.find s.mem a).getD defaultHeader).allocated = false
  flagT : ∀ a ∈ al, ((Mem.find s.mem a).getD defaultHeader).allocated = true
  bound : ∀ a ∈ Mem.keys s.mem, a ≤ s.free_addr
  uninit : s.start_addr = 0 → s.mem = [] ∧ s.free_list_head = none ∧
    s.allocated_list_head = none

/-- The allocator invariant: some listing of the two chains satisfies
`InvData`. -/
def Inv (s : AllocState) : Prop := ∃ fl al, InvData s fl al

theorem InvData.fl_keys (s : AllocState) (fl al : List Nat) (hinv : InvData s fl al) :
    ∀ a ∈ fl, a ∈ Mem.keys s.mem := by
  intro a ha
  obtain ⟨hh, hfind⟩ := segB_find s.mem fl none s.free_list_head none hinv.hfl a ha
  rw [← Mem.find_isSome_iff, hfind]
  rfl

theorem InvData.al_keys (s : AllocState) (fl al : List Nat) (hinv : InvData s fl al) :
    ∀ a ∈ al, a ∈ Mem.keys s.mem := by
  intro a ha
  obtain ⟨hh, hfind⟩ := segB_find s.mem al none s.allocated_list_head none hinv.hal a ha
  rw [← Mem.find_isSome_iff, hfind]
  rfl

theorem init_inv (heapBase : Nat) (s : AllocState) (hhb : heapBase ≠ 0) (hinv : Inv s) :
    Inv (init heapBase s) ∧ (init heapBase s).start_addr ≠ 0 := by
  obtain ⟨fl, al, hd⟩ := hinv
  by_cases hs : s.start_addr = 0
  · obtain ⟨hmem, hflh, halh⟩ := hd.uninit hs
    constructor
    · refine ⟨[], [], ?_⟩
      constructor <;> simp [init, hs, hmem, hflh, halh, segB_nil_iff, Mem.keys]
    · simp [init, hs, hhb]
  · rw [init_noop heapBase s hs]
    exact ⟨⟨fl, al, hd⟩, hs⟩

theorem seedAfter_none_iff (l : List Nat) : seedAfter none l = none ↔ l = [] := by
  cases hgl : l.getLast? with
  | none =>
    rw [List.getLast?_eq_none_iff] at hgl
    subst hgl
    simp [seedAfter]
  | some a =>
    have hl : l ≠ [] := by
      intro h
      subst h
      cases hgl
    simp [seedAfter, hgl, hl]

theorem seedAfter_getLast (l : List Nat) (pa : Nat) (h : seedAfter none l = some pa) :
    l.getLast? = some pa := by
  cases hgl : l.getLast? with
  | none => simp [seedAfter, hgl] at h
  | some a =>
    simp only [seedAfter, hgl] at h
    exact h

theorem segB_none_head (m : Mem) (p : Option Nat) (l : List Nat)
    (hseg : segB m p none l none = true) : l = [] := by
  cases l with
  | nil => rfl
  | cons c lx =>
    rw [segB_cons_iff] at hseg
    obtain ⟨hh, _⟩ := hseg
    cases hh

/-- The reuse splice of `malloc` preserves the allocator invariant: the
best-fit block moves from the free chain to the head of the allocated
chain. -/
theorem reuse_inv (s : AllocState) (fl al : List Nat) (b : Nat) (hbh : Header)
    (hinv : InvData s fl al) (hmemb : b ∈ fl) (hfb : Mem.find s.mem b = some hbh) :
    Inv (reusePath s b hbh) := by
  obtain ⟨l1, l2, rfl⟩ := List.append_of_mem hmemb
  have hflx := hinv.hfl
  rw [segB_append_iff] at hflx
  obtain ⟨h2, hseg1, hseg2⟩ := hflx
  rw [segB_cons_iff] at hseg2
  obtain ⟨hh2, hb2, hfb2, hprev, hseg3⟩ := hseg2
  rw [hfb] at hfb2
  cases hfb2
  subst hh2
  have hnd := hinv.ndfl
  rw [List.nodup_append, List.nodup_cons] at hnd
  obtain ⟨ndl1, ⟨hbl2, ndl2⟩, hdisj⟩ := hnd
  have hbl1 : b ∉ l1 := fun hx => hdisj hx (List.mem_cons_self _ _)
  have hbmem : b ∈ l1 ++ b :: l2 :=
    List.mem_append.mpr (Or.inr (List.mem_cons_self _ _))
  have hmem_l1 : ∀ x ∈ l1, x ∈ l1 ++ b :: l2 := fun x hx => List.mem_append.mpr (Or.inl hx)
  have hmem_l2 : ∀ x ∈ l2, x ∈ l1 ++ b :: l2 :=
    fun x hx => List.mem_append.mpr (Or.inr (List.mem_cons_of_mem _ hx))
  have hx_ne_oa : ∀ x, x ∈ l1 ++ b :: l2 → ∀ oa, s.allocated_list_head = some oa → x ≠ oa := by
    intro x hx oa hoa hxx
    subst hxx
    have halx := hinv.hal
    rw [hoa] at halx
    obtain ⟨al2, hal2⟩ := segB_head _ _ _ _ halx
    exact hinv.disj x hx (hal2 ▸ List.mem_cons_self _ _)
  have hpa_l1 : ∀ pa, hbh.prev = some pa → pa ∈ l1 ∧ l1.getLast? = some pa := by
    intro pa hp
    rw [hp] at hprev
    have hgl := seedAfter_getLast l1 pa hprev.symm
    exact ⟨List.mem_of_mem_getLast? hgl, hgl⟩
  have hna_l2 : ∀ na, hbh.next = some na → ∃ l2x, l2 = na :: l2x := by
    intro na hn
    rw [hn] at hseg3
    exact segB_head _ _ _ _ hseg3
  have hna_mem : ∀ na, hbh.next = some na → na ∈ l2 := by
    intro na hn
    obtain ⟨l2x, hl2⟩ := hna_l2 na hn
    rw [hl2]
    exact List.mem_cons_self _ _
  have hb_ne_pa : ∀ pa, hbh.prev = some pa → b ≠ pa :=
    fun pa hp hbp => hbl1 (hbp ▸ (hpa_l1 pa hp).1)
  have hb_ne_na : ∀ na, hbh.next = some na → b ≠ na := by
    intro na hn hbn
    subst hbn
    exact hbl2 (hna_mem b hn)
  have hb_ne_oa : ∀ oa, s.allocated_list_head = some oa → b ≠ oa :=
    fun oa hoa => hx_ne_oa b hbmem oa hoa
  have hpa_ne_na : ∀ pa, hbh.prev = some pa → ∀ na, hbh.next = some na → pa ≠ na := by
    intro pa hp na hn hpn
    subst hpn
    exact hdisj (hpa_l1 pa hp).1 (List.mem_cons_of_mem b (hna_mem pa hn))
  -- untouched-address helper for members of the original free chain
  have hunt_fl : ∀ x, x ∈ l1 ++ b :: l2 → x ≠ b →
      (∀ pa, hbh.prev = some pa → x ≠ pa) → (∀ na, hbh.next = some na → x ≠ na) →
      Mem.find (reusePath s b hbh).mem x = Mem.find s.mem x := by
    intro x hx hxb hxp hxn
    exact reusePath_find_untouched s b hbh x hxb hxp hxn (hx_ne_oa x hx)
  -- untouched-address helper for members of the allocated chain
  have hunt_al : ∀ x ∈ al, x ≠ s.allocated_list_head.getD (x + 1) →
      Mem.find (reusePath s b hbh).mem x = Mem.find s.mem x := by
    intro x hx hxo
    refine reusePath_find_untouched s b hbh x ?_ ?_ ?_ ?_
    · intro hxx
      exact hinv.disj b hbmem (hxx ▸ hx)
    · intro pa hp hxx
      exact hinv.disj pa (hmem_l1 pa (hpa_l1 pa hp).1) (hxx ▸ hx)
    · intro na hn hxx
      exact hinv.disj na (hmem_l2 na (hna_mem na hn)) (hxx ▸ hx)
    · intro oa hoa hxx
      rw [hoa] at hxo
      exact hxo (by simpa using hxx)
  -- the new free chain
  have hflchain : segB (reusePath s b hbh).mem none (reusePath s b hbh).free_list_head
      (l1 ++ l2) none = true := by
    cases hp : hbh.prev with
    | none =>
      have hl1 : l1 = [] := by
        rw [hp] at hprev
        exact (seedAfter_none_iff l1).mp hprev.symm
      subst hl1
      rw [reusePath_flh_none s b hbh hp]
      rw [List.nil_append]
      cases hl2c : l2 with
      | nil =>
        subst hl2c
        rw [segB_nil_iff] at hseg3 ⊢
        exact hseg3
      | cons na l2x =>
        subst hl2c
        have hnext : hbh.next = some na := by
          rw [segB_cons_iff] at hseg3
          exact hseg3.1
        rw [hnext]
        refine segB_reseed s.mem (reusePath s b hbh).mem (some b) none na l2x none
          (by rw [← hnext]; exact hseg3) ?_ ?_
        · rw [reusePath_find_na s b hbh na hnext (Ne.symm (hb_ne_na na hnext))
            (fun pa hpp => absurd (hp ▸ hpp) (by simp))
            (fun oa hoa => hx_ne_oa na (hmem_l2 na (List.mem_cons_self _ _)) oa hoa)]
          rw [hp]
        · intro x hx
          refine hunt_fl x (hmem_l2 x (List.mem_cons_of_mem _ hx)) ?_ ?_ ?_
          · intro hxx
            exact hbl2 (hxx ▸ List.mem_cons_of_mem _ hx)
          · intro pa hpp
            rw [hp] at hpp
            cases hpp
          · intro na2 hnn hxx
            rw [hnext] at hnn
            cases hnn
            exact (List.nodup_cons.mp ndl2).1 (hxx ▸ hx)
    | some pa =>
      obtain ⟨hpamem, hpalast⟩ := hpa_l1 pa hp
      rw [reusePath_flh_some s b hbh pa hp]
      rw [segB_append_iff]
      refine ⟨hbh.next, ?_, ?_⟩
      · -- retarget the last link of l1 from b to hbh.next
        refine segB_retarget s.mem (reusePath s b hbh).mem l1 none s.free_list_head
          (some b) hbh.next pa hseg1 hpalast ndl1 ?_ ?_
        · rw [reusePath_find_pa s b hbh pa hp (Ne.symm (hb_ne_pa pa hp))
            (fun na hn => hpa_ne_na pa hp na hn)
            (fun oa hoa => hx_ne_oa pa (hmem_l1 pa hpamem) oa hoa)]
        · intro x hx hxpa
          refine hunt_fl x (hmem_l1 x hx) ?_ ?_ ?_
          · intro hxx
            exact hbl1 (hxx ▸ hx)
          · intro pa2 hpp hxx
            rw [hp] at hpp
            cases hpp
            exact hxpa hxx
          · intro na hn hxx
            subst hxx
            exact hdisj hx (List.mem_cons_of_mem b (hna_mem x hn))
      · -- the tail l2, reseeded onto pa
        have hseed : seedAfter none l1 = some pa := by
          rw [hp] at hprev
          exact hprev.symm
        rw [hseed]
        cases hl2c : l2 with
        | nil =>
          subst hl2c
          rw [segB_nil_iff] at hseg3 ⊢
          exact hseg3
        | cons na l2x =>
          subst hl2c
          have hnext : hbh.next = some na := by
            rw [segB_cons_iff] at hseg3
            exact hseg3.1
          rw [hnext]
          refine segB_reseed s.mem (reusePath s b hbh).mem (some b) (some pa) na l2x none
            (by rw [← hnext]; exact hseg3) ?_ ?_
          · rw [reusePath_find_na s b hbh na hnext (Ne.symm (hb_ne_na na hnext))
              (fun pa2 hpp => Ne.symm (hpa_ne_na pa2 hpp na hnext))
              (fun oa hoa => hx_ne_oa na (hmem_l2 na (List.mem_cons_self _ _)) oa hoa)]
            rw [hp]
          · intro x hx
            refine hunt_fl x (hmem_l2 x (List.mem_cons_of_mem _ hx)) ?_ ?_ ?_
            · intro hxx
              exact hbl2 (hxx ▸ List.mem_cons_of_mem _ hx)
            · intro pa2 hpp hxx
              rw [hp] at hpp
              cases hpp
              exact hdisj hpamem (List.mem_cons_of_mem b (List.mem_cons_of_mem na (hxx ▸ hx)))
            · intro na2 hnn hxx
              rw [hnext] at hnn
              cases hnn
              exact (List.nodup_cons.mp ndl2).1 (hxx ▸ hx)
  -- the new allocated chain
  have halchain : segB (reusePath s b hbh).mem none (reusePath s b hbh).allocated_list_head
      (b :: al) none = true := by
    rw [reusePath_alh]
    rw [segB_cons_iff]
    refine ⟨rfl, Header.mk s.allocated_list_head none hbh.size true, ?_, rfl, ?_⟩
    · exact reusePath_find_b s b hbh hfb hb_ne_pa hb_ne_na hb_ne_oa
    · -- chain of the old allocated list, reseeded onto b
      cases hoa : s.allocated_list_head with
      | none =>
        have hal0 : al = [] := by
          have halx := hinv.hal
          rw [hoa] at halx
          exact segB_none_head _ _ _ halx
        subst hal0
        rw [segB_nil_iff]
      | some oa =>
        have halx := hinv.hal
        rw [hoa] at halx
        obtain ⟨al2, hal2⟩ := segB_head _ _ _ _ halx
        subst hal2
        refine segB_reseed s.mem (reusePath s b hbh).mem none (some b) oa al2 none
          halx ?_ ?_
        · rw [reusePath_find_oa s b hbh oa hoa
            (fun hoo => hinv.disj b hbmem (hoo ▸ List.mem_cons_self _ _))
            (fun pa hp hoo => hinv.disj pa (hmem_l1 pa (hpa_l1 pa hp).1)
              (hoo ▸ List.mem_cons_self _ _))
            (fun na hn hoo => hinv.disj na (hmem_l2 na (hna_mem na hn))
              (hoo ▸ List.mem_cons_self _ _))]
        · intro x hx
          refine hunt_al x (List.mem_cons_of_mem _ hx) ?_
          rw [hoa]
          intro hxx
          exact (List.nodup_cons.mp hinv.ndal).1 ((by simpa using hxx) ▸ hx)
  -- assemble the invariant
  refine ⟨l1 ++ l2, b :: al, ?_⟩
  have hkeys := reusePath_keys s b hbh
  obtain ⟨hfa, hsa, hea, hdata⟩ := reusePath_scalars s b hbh
  have hfindkeep : ∀ x, x ∈ l1 ++ l2 →
      ((Mem.find (reusePath s b hbh).mem x).getD defaultHeader).allocated =
      ((Mem.find s.mem x).getD defaultHeader).allocated := by
    intro x hx
    rcases List.mem_append.mp hx with hx1 | hx2
    · by_cases hxpa : ∃ pa, hbh.prev = some pa ∧ x = pa
      · obtain ⟨pa, hp, hxe⟩ := hxpa
        subst hxe
        rw [reusePath_find_pa s b hbh x hp (Ne.symm (hb_ne_pa x hp))
          (fun na hn => hpa_ne_na x hp na hn)
          (fun oa hoa => hx_ne_oa x (hmem_l1 x hx1) oa hoa)]
        cases Mem.find s.mem x <;> rfl
      · push_neg at hxpa
        refine congrArg (fun o => (Option.getD o defaultHeader).allocated) ?_
        refine hunt_fl x (hmem_l1 x hx1) ?_ ?_ ?_
        · intro hxx
          exact hbl1 (hxx ▸ hx1)
        · intro pa hp hxx
          exact hxpa pa hp hxx
        · intro na hn hxx
          subst hxx
          exact hdisj hx1 (List.mem_cons_of_mem b (hna_mem x hn))
    · by_cases hxna : ∃ na, hbh.next = some na ∧ x = na
      · obtain ⟨na, hn, hxe⟩ := hxna
        subst hxe
        rw [reusePath_find_na s b hbh x hn (Ne.symm (hb_ne_na x hn))
          (fun pa hp => Ne.symm (hpa_ne_na pa hp x hn))
          (fun oa hoa => hx_ne_oa x (hmem_l2 x hx2) oa hoa)]
        cases Mem.find s.mem x <;> rfl
      · push_neg at hxna
        refine congrArg (fun o => (Option.getD o defaultHeader).allocated) ?_
        refine hunt_fl x (hmem_l2 x hx2) ?_ ?_ ?_
        · intro hxx
          exact hbl2 (hxx ▸ hx2)
        · intro pa hp hxx
          exact hdisj (hpa_l1 pa hp).1 (List.mem_cons_of_mem b (hxx ▸ hx2))
        · intro na hn hxx
          exact hxna na hn hxx
  constructor
  case hfl => exact hflchain
  case hal => exact halchain
  case ndfl =>
    exact List.Nodup.sublist
      (List.Sublist.append_left (List.sublist_cons_self b l2) l1) hinv.ndfl
  case ndal => exact List.nodup_cons.mpr ⟨hinv.disj b hbmem, hinv.ndal⟩
  case disj =>
    intro a ha hamem
    rcases List.mem_cons.mp hamem with rfl | haal
    · rcases List.mem_append.mp ha with h1 | h2
      · exact hbl1 h1
      · exact hbl2 h2
    · rcases List.mem_append.mp ha with h1 | h2
      · exact hinv.disj a (hmem_l1 a h1) haal
      · exact hinv.disj a (hmem_l2 a h2) haal
  case cover =>
    intro a ha
    rw [hkeys] at ha
    rcases hinv.cover a ha with hafl | haal
    · rcases List.mem_append.mp hafl with h1 | h12
      · exact Or.inl (List.mem_append.mpr (Or.inl h1))
      · rcases List.mem_cons.mp h12 with rfl | h2
        · exact Or.inr (List.mem_cons_self _ _)
        · exact Or.inl (List.mem_append.mpr (Or.inr h2))
    · exact Or.inr (List.mem_cons_of_mem _ haal)
  case flagF =>
    intro a ha
    rw [hfindkeep a ha]
    rcases List.mem_append.mp ha with h1 | h2
    · exact hinv.flagF a (hmem_l1 a h1)
    · exact hinv.flagF a (hmem_l2 a h2)
  case flagT =>
    intro a ha
    rcases List.mem_cons.mp ha with rfl | haal
    · rw [reusePath_find_b s a hbh hfb hb_ne_pa hb_ne_na hb_ne_oa]
      rfl
    · by_cases hxoa : ∃ oa, s.allocated_list_head = some oa ∧ a = oa
      · obtain ⟨oa, hoa, hxe⟩ := hxoa
        subst hxe
        rw [reusePath_find_oa s b hbh a hoa
          (fun hoo => hinv.disj b hbmem (hoo ▸ haal))
          (fun pa hp hoo => hinv.disj pa (hmem_l1 pa (hpa_l1 pa hp).1) (hoo ▸ haal))
          (fun na hn hoo => hinv.disj na (hmem_l2 na (hna_mem na hn)) (hoo ▸ haal))]
        have := hinv.flagT a haal
        cases hfoa : Mem.find s.mem a with
        | none => rw [hfoa] at this; exact absurd this (by simp [defaultHeader])
        | some hhh =>
          rw [hfoa] at this
          simp at this ⊢
          exact this
      · push_neg at hxoa
        have hfk : Mem.find (reusePath s b hbh).mem a = Mem.find s.mem a := by
          refine hunt_al a haal ?_
          cases hoa : s.allocated_list_head with
          | none => simp
          | some oa => simpa using hxoa oa hoa
        rw [hfk]
        exact hinv.flagT a haal
  case bound =>
    intro a ha
    rw [hkeys] at ha
    rw [hfa]
    exact hinv.bound a ha
  case uninit =>
    intro h0
    rw [hsa] at h0
    obtain ⟨hm0, _, _⟩ := hinv.uninit h0
    rw [hm0] at hfb
    cases hfb

/-- The bump path of `malloc` preserves the allocator invariant: a fresh
header is carved above every stored header and spliced onto the head of
the allocated chain, whether or not the call then fails for lack of
space. -/
theorem bump_inv (s : AllocState) (fl al : List Nat) (size : Nat) (r : Option Nat)
    (s1 : AllocState) (hinv : InvData s fl al) (hs0 : s.start_addr ≠ 0)
    (hbp : bumpPath s size = .ok r s1) : Inv s1 := by
  have hmod : s.free_addr % 16 < 16 := Nat.mod_lt _ (by omega)
  have hAgt : s.free_addr < s.free_addr + (16 - s.free_addr % 16) := by omega
  have hkey_ne : ∀ x ∈ Mem.keys s.mem, x ≠ s.free_addr + (16 - s.free_addr % 16) := by
    intro x hx hxx
    have := hinv.bound x hx
    omega
  have hfl_ne : ∀ x ∈ fl, x ≠ s.free_addr + (16 - s.free_addr % 16) :=
    fun x hx => hkey_ne x (hinv.fl_keys s fl al x hx)
  have hal_ne : ∀ x ∈ al, x ≠ s.free_addr + (16 - s.free_addr % 16) :=
    fun x hx => hkey_ne x (hinv.al_keys s fl al x hx)
  simp only [bumpPath] at hbp
  cases hoa : s.allocated_list_head with
  | none =>
    rw [hoa] at hbp
    have hal0 : al = [] := by
      have halx := hinv.hal
      rw [hoa] at halx
      exact segB_none_head _ _ _ halx
    subst hal0
    have hfind : ∀ x, Mem.find (Mem.write s.mem (s.free_addr + (16 - s.free_addr % 16))
        (Header.mk none none size true)) x =
        if x = s.free_addr + (16 - s.free_addr % 16) then some (Header.mk none none size true)
        else Mem.find s.mem x := fun x => Mem.find_write s.mem _ _ x
    have hchains : ∀ F, s.free_addr + (16 - s.free_addr % 16) ≤ F →
        Inv { s with
          mem := Mem.write s.mem (s.free_addr + (16 - s.free_addr % 16))
            (Header.mk none none size true),
          allocated_list_head := some (s.free_addr + (16 - s.free_addr % 16)),
          free_addr := F } := by
      intro F hF
      refine ⟨fl, [s.free_addr + (16 - s.free_addr % 16)], ?_⟩
      constructor
      case hfl =>
        refine segB_congr s.mem _ fl none s.free_list_head none ?_ hinv.hfl
        intro x hx
        rw [hfind x, if_neg (hfl_ne x hx)]
      case hal =>
        rw [segB_cons_iff]
        exact ⟨rfl, Header.mk none none size true, by rw [hfind, if_pos rfl], rfl,
          (segB_nil_iff _ _ _ _).mpr rfl⟩
      case ndfl => exact hinv.ndfl
      case ndal => simp
      case disj =>
        intro a ha hmem
        rcases List.mem_cons.mp hmem with hc | hc
        · exact (hfl_ne a ha) hc
        · cases hc
      case cover =>
        intro a ha
        simp only [Mem.write, Mem.keys, List.map_cons, List.mem_cons] at ha
        rcases ha with rfl | ha2
        · exact Or.inr (List.mem_cons_self _ _)
        · rcases hinv.cover a ha2 with h1 | h2
          · exact Or.inl h1
          · cases h2
      case flagF =>
        intro a ha
        rw [hfind a, if_neg (hfl_ne a ha)]
        exact hinv.flagF a ha
      case flagT =>
        intro a ha
        rcases List.mem_cons.mp ha with hc | hc
        · rw [hc, hfind _, if_pos rfl]
          rfl
        · cases hc
      case bound =>
        intro a ha
        show a ≤ F
        simp only [Mem.write, Mem.keys, List.map_cons, List.mem_cons] at ha
        rcases ha with rfl | ha2
        · exact hF
        · have := hinv.bound a ha2
          omega
      case uninit =>
        intro h0
        exact absurd h0 hs0
    split at hbp
    · cases hbp
      exact hchains _ (le_refl _)
    · cases hbp
      exact hchains _ (by unfold HEADER_TO_BLOCK sizeof_header_s; omega)
  | some oa =>
    rw [hoa] at hbp
    have halx := hinv.hal
    rw [hoa] at halx
    obtain ⟨al2, hal2⟩ := segB_head _ _ _ _ halx
    subst hal2
    have hoamem : oa ∈ Mem.keys s.mem :=
      hinv.al_keys s fl (oa :: al2) oa (List.mem_cons_self _ _)
    have hoane : oa ≠ s.free_addr + (16 - s.free_addr % 16) := hkey_ne oa hoamem
    have hfind : ∀ x,
        Mem.find (Mem.setPrev (Mem.write s.mem (s.free_addr + (16 - s.free_addr % 16))
          (Header.mk (some oa) none size true)) oa
            (some (s.free_addr + (16 - s.free_addr % 16)))) x =
        if x = s.free_addr + (16 - s.free_addr % 16) then
          some (Header.mk (some oa) none size true)
        else if x = oa then
          (Mem.find s.mem oa).map fun hh => { hh with
            prev := some (s.free_addr + (16 - s.free_addr % 16)) }
        else Mem.find s.mem x := by
      intro x
      by_cases hxA : x = s.free_addr + (16 - s.free_addr % 16)
      · subst hxA
        simp [Mem.find_setPrev, Mem.find_write, Ne.symm hoane]
      · by_cases hxo : x = oa
        · subst hxo
          simp [Mem.find_setPrev, Mem.find_write, hoane]
        · simp [Mem.find_setPrev, Mem.find_write, hxA, hxo]
    have hka : Mem.keys (Mem.setPrev (Mem.write s.mem (s.free_addr + (16 - s.free_addr % 16))
        (Header.mk (some oa) none size true)) oa
          (some (s.free_addr + (16 - s.free_addr % 16)))) =
        (s.free_addr + (16 - s.free_addr % 16)) :: Mem.keys s.mem := by
      rw [Mem.setPrev, Mem.keys_modify]
      simp [Mem.write, Mem.keys]
    have hchains : ∀ F, s.free_addr + (16 - s.free_addr % 16) ≤ F →
        Inv { s with
          mem := Mem.setPrev (Mem.write s.mem (s.free_addr + (16 - s.free_addr % 16))
            (Header.mk (some oa) none size true)) oa
              (some (s.free_addr + (16 - s.free_addr % 16))),
          allocated_list_head := some (s.free_addr + (16 - s.free_addr % 16)),
          free_addr := F } := by
      intro F hF
      refine ⟨fl, (s.free_addr + (16 - s.free_addr % 16)) :: oa :: al2, ?_⟩
      constructor
      case hfl =>
        refine segB_congr s.mem _ fl none s.free_list_head none ?_ hinv.hfl
        intro x hx
        rw [hfind x, if_neg (hfl_ne x hx),
          if_neg (fun hxo : x = oa => hinv.disj x hx (hxo ▸ List.mem_cons_self _ _))]
      case hal =>
        rw [segB_cons_iff]
        refine ⟨rfl, Header.mk (some oa) none size true, by rw [hfind, if_pos rfl], rfl, ?_⟩
        refine segB_reseed s.mem _ none
          (some (s.free_addr + (16 - s.free_addr % 16))) oa al2 none halx ?_ ?_
        · rw [hfind oa, if_neg hoane, if_pos rfl]
        · intro x hx
          have hxal : x ∈ oa :: al2 := List.mem_cons_of_mem _ hx
          rw [hfind x, if_neg (hal_ne x hxal),
            if_neg (fun hxo : x = oa => (List.nodup_cons.mp hinv.ndal).1 (hxo ▸ hx))]
      case ndfl => exact hinv.ndfl
      case ndal =>
        rw [List.nodup_cons]
        exact ⟨fun hc => hal_ne _ hc rfl, hinv.ndal⟩
      case disj =>
        intro a ha hmem
        rcases List.mem_cons.mp hmem with hc | hc
        · exact (hfl_ne a ha) hc
        · exact hinv.disj a ha hc
      case cover =>
        intro a ha
        rw [hka] at ha
        rcases List.mem_cons.mp ha with rfl | ha2
        · exact Or.inr (List.mem_cons_self _ _)
        · rcases hinv.cover a ha2 with h1 | h2
          · exact Or.inl h1
          · exact Or.inr (List.mem_cons_of_mem _ h2)
      case flagF =>
        intro a ha
        rw [hfind a, if_neg (hfl_ne a ha),
          if_neg (fun hxo : a = oa => hinv.disj a ha (hxo ▸ List.mem_cons_self _ _))]
        exact hinv.flagF a ha
      case flagT =>
        intro a ha
        rcases List.mem_cons.mp ha with hc | ha2
        · rw [hc, hfind _, if_pos rfl]
          rfl
        · rcases List.mem_cons.mp ha2 with hc | ha3
          · rw [hc, hfind _, if_neg hoane, if_pos rfl]
            have hT := hinv.flagT oa (List.mem_cons_self _ _)
            cases hfoa : Mem.find s.mem oa with
            | none => rw [hfoa] at hT; exact absurd hT (by simp [defaultHeader])
            | some hhh =>
              rw [hfoa] at hT
              simpa using hT
          · have hxal : a ∈ oa :: al2 := List.mem_cons_of_mem _ ha3
            rw [hfind a, if_neg (hal_ne a hxal),
              if_neg (fun hxo : a = oa => (List.nodup_cons.mp hinv.ndal).1 (hxo ▸ ha3))]
            exact hinv.flagT a hxal
      case bound =>
        intro a ha
        show a ≤ F
        rw [hka] at ha
        rcases List.mem_cons.mp ha with rfl | ha2
        · exact hF
        · have := hinv.bound a ha2
          omega
      case uninit =>
        intro h0
        exact absurd h0 hs0
    split at hbp
    · cases hbp
      exact hchains _ (le_refl _)
    · cases hbp
      exact hchains _ (by unfold HEADER_TO_BLOCK sizeof_header_s; omega)

theorem freePath_find_untouched (s : AllocState) (q : Nat) (h : Header) (x : Nat)
    (hxq : x ≠ q)
    (hxn : ∀ na, h.next = some na → x ≠ na)
    (hxp : ∀ pa, h.prev = some pa → x ≠ pa)
    (hxf : ∀ fo, s.free_list_head = some fo → x ≠ fo) :
    Mem.find (freePath s q h).mem x = Mem.find s.mem x := by
  cases hn2 : h.next with
  | none =>
    cases hp2 : h.prev with
    | none =>
      cases hf2 : s.free_list_head with
      | none =>
        simp [freePath, hn2, hp2, hf2, Mem.find_setNext, Mem.find_setPrev, Mem.find_setAllocated, hxq]
      | some fo =>
        simp [freePath, hn2, hp2, hf2, Mem.find_setNext, Mem.find_setPrev, Mem.find_setAllocated, hxq, hxf fo hf2]
    | some pa =>
      cases hf2 : s.free_list_head with
      | none =>
        simp [freePath, hn2, hp2, hf2, Mem.find_setNext, Mem.find_setPrev, Mem.find_setAllocated, hxq, hxp pa hp2]
      | some fo =>
        simp [freePath, hn2, hp2, hf2, Mem.find_setNext, Mem.find_setPrev, Mem.find_setAllocated, hxq, hxp pa hp2, hxf fo hf2]
  | some na =>
    cases hp2 : h.prev with
    | none =>
      cases hf2 : s.free_list_head with
      | none =>
        simp [freePath, hn2, hp2, hf2, Mem.find_setNext, Mem.find_setPrev, Mem.find_setAllocated, hxq, hxn na hn2]
      | some fo =>
        simp [freePath, hn2, hp2, hf2, Mem.find_setNext, Mem.find_setPrev, Mem.find_setAllocated, hxq, hxn na hn2, hxf fo hf2]
    | some pa =>
      cases hf2 : s.free_list_head with
      | none =>
        simp [freePath, hn2, hp2, hf2, Mem.find_setNext, Mem.find_setPrev, Mem.find_setAllocated, hxq, hxn na hn2, hxp pa hp2]
      | some fo =>
        simp [freePath, hn2, hp2, hf2, Mem.find_setNext, Mem.find_setPrev, Mem.find_setAllocated, hxq, hxn na hn2, hxp pa hp2, hxf fo hf2]

theorem freePath_find_q (s : AllocState) (q : Nat) (h : Header)
    (hfq : Mem.find s.mem q = some h)
    (hqn : ∀ na, h.next = some na → q ≠ na)
    (hqp : ∀ pa, h.prev = some pa → q ≠ pa)
    (hqf : ∀ fo, s.free_list_head = some fo → q ≠ fo) :
    Mem.find (freePath s q h).mem q =
      some { next := s.free_list_head, prev := none, size := h.size,
             allocated := false } := by
  cases hn2 : h.next with
  | none =>
    cases hp2 : h.prev with
    | none =>
      cases hf2 : s.free_list_head with
      | none =>
        simp [freePath, hn2, hp2, hf2, Mem.find_setNext, Mem.find_setPrev, Mem.find_setAllocated, hfq]
      | some fo =>
        simp [freePath, hn2, hp2, hf2, Mem.find_setNext, Mem.find_setPrev, Mem.find_setAllocated, hfq, hqf fo hf2]
    | some pa =>
      cases hf2 : s.free_list_head with
      | none =>
        simp [freePath, hn2, hp2, hf2, Mem.find_setNext, Mem.find_setPrev, Mem.find_setAllocated, hfq, hqp pa hp2]
      | some fo =>
        simp [freePath, hn2, hp2, hf2, Mem.find_setNext, Mem.find_setPrev, Mem.find_setAllocated, hfq, hqp pa hp2, hqf fo hf2]
  | some na =>
    cases hp2 : h.prev with
    | none =>
      cases hf2 : s.free_list_head with
      | none =>
        simp [freePath, hn2, hp2, hf2, Mem.find_setNext, Mem.find_setPrev, Mem.find_setAllocated, hfq, hqn na hn2]
      | some fo =>
        simp [freePath, hn2, hp2, hf2, Mem.find_setNext, Mem.find_setPrev, Mem.find_setAllocated, hfq, hqn na hn2, hqf fo hf2]
    | some pa =>
      cases hf2 : s.free_list_head with
      | none =>
        simp [freePath, hn2, hp2, hf2, Mem.find_setNext, Mem.find_setPrev, Mem.find_setAllocated, hfq, hqn na hn2, hqp pa hp2]
      | some fo =>
        simp [freePath, hn2, hp2, hf2, Mem.find_setNext, Mem.find_setPrev, Mem.find_setAllocated, hfq, hqn na hn2, hqp pa hp2, hqf fo hf2]

theorem freePath_find_pa (s : AllocState) (q : Nat) (h : Header) (pa : Nat)
    (hp2 : h.prev = some pa)
    (hpq : pa ≠ q)
    (hpn : ∀ na, h.next = some na → pa ≠ na)
    (hpf : ∀ fo, s.free_list_head = some fo → pa ≠ fo) :
    Mem.find (freePath s q h).mem pa =
      (Mem.find s.mem pa).map fun hh => { hh with next := h.next } := by
  cases hn2 : h.next with
  | none =>
    cases hf2 : s.free_list_head with
    | none =>
      simp [freePath, hn2, hp2, hf2, Mem.find_setNext, Mem.find_setPrev, Mem.find_setAllocated, hpq]
    | some fo =>
      simp [freePath, hn2, hp2, hf2, Mem.find_setNext, Mem.find_setPrev, Mem.find_setAllocated, hpq, hpf fo hf2]
  | some na =>
    cases hf2 : s.free_list_head with
    | none =>
      simp [freePath, hn2, hp2, hf2, Mem.find_setNext, Mem.find_setPrev, Mem.find_setAllocated, hpq, hpn na hn2]
    | some fo =>
      simp [freePath, hn2, hp2, hf2, Mem.find_setNext, Mem.find_setPrev, Mem.find_setAllocated, hpq, hpn na hn2, hpf fo hf2]

theorem freePath_find_na (s : AllocState) (q : Nat) (h : Header) (na : Nat)
    (hn2 : h.next = some na)
    (hnq : na ≠ q)
    (hnp : ∀ pa, h.prev = some pa → na ≠ pa)
    (hnf : ∀ fo, s.free_list_head = some fo → na ≠ fo) :
    Mem.find (freePath s q h).mem na =
      (Mem.find s.mem na).map fun hh => { hh with prev := h.prev } := by
  cases hp2 : h.prev with
  | none =>
    cases hf2 : s.free_list_head with
    | none =>
      simp [freePath, hn2, hp2, hf2, Mem.find_setNext, Mem.find_setPrev, Mem.find_setAllocated, hnq]
    | some fo =>
      simp [freePath, hn2, hp2, hf2, Mem.find_setNext, Mem.find_setPrev, Mem.find_setAllocated, hnq, hnf fo hf2]
  | some pa =>
    cases hf2 : s.free_list_head with
    | none =>
      simp [freePath, hn2, hp2, hf2, Mem.find_setNext, Mem.find_setPrev, Mem.find_setAllocated, hnq, hnp pa hp2]
    | some fo =>
      simp [freePath, hn2, hp2, hf2, Mem.find_setNext, Mem.find_setPrev, Mem.find_setAllocated, hnq, hnp pa hp2, hnf fo hf2]

theorem freePath_find_fo (s : AllocState) (q : Nat) (h : Header) (fo : Nat)
    (hf2 : s.free_list_head = some fo)
    (hfoq : fo ≠ q)
    (hfon : ∀ na, h.next = some na → fo ≠ na)
    (hfop : ∀ pa, h.prev = some pa → fo ≠ pa) :
    Mem.find (freePath s q h).mem fo =
      (Mem.find s.mem fo).map fun hh => { hh with prev := some q } := by
  cases hn2 : h.next with
  | none =>
    cases hp2 : h.prev with
    | none =>
      simp [freePath, hn2, hp2, hf2, Mem.find_setNext, Mem.find_setPrev, Mem.find_setAllocated, hfoq]
    | some pa =>
      simp [freePath, hn2, hp2, hf2, Mem.find_setNext, Mem.find_setPrev, Mem.find_setAllocated, hfoq, hfop pa hp2]
  | some na =>
    cases hp2 : h.prev with
    | none =>
      simp [freePath, hn2, hp2, hf2, Mem.find_setNext, Mem.find_setPrev, Mem.find_setAllocated, hfoq, hfon na hn2]
    | some pa =>
      simp [freePath, hn2, hp2, hf2, Mem.find_setNext, Mem.find_setPrev, Mem.find_setAllocated, hfoq, hfon na hn2, hfop pa hp2]

theorem freePath_flh (s : AllocState) (q : Nat) (h : Header) :
    (freePath s q h).free_list_head = some q := by
  cases hn2 : h.next <;> cases hp2 : h.prev <;> cases hf2 : s.free_list_head <;>
    simp [freePath, hn2, hp2, hf2]

theorem freePath_alh_none (s : AllocState) (q : Nat) (h : Header) (hp2 : h.prev = none) :
    (freePath s q h).allocated_list_head = h.next := by
  cases hn2 : h.next <;> cases hf2 : s.free_list_head <;>
    simp [freePath, hn2, hp2, hf2]

theorem freePath_alh_some (s : AllocState) (q : Nat) (h : Header) (pa : Nat)
    (hp2 : h.prev = some pa) :
    (freePath s q h).allocated_list_head = s.allocated_list_head := by
  cases hn2 : h.next <;> cases hf2 : s.free_list_head <;>
    simp [freePath, hn2, hp2, hf2]

theorem freePath_scalars (s : AllocState) (q : Nat) (h : Header) :
    (freePath s q h).free_addr = s.free_addr ∧
    (freePath s q h).start_addr = s.start_addr ∧
    (freePath s q h).end_addr = s.end_addr ∧
    (freePath s q h).data = s.data := by
  cases hn2 : h.next <;> cases hp2 : h.prev <;> cases hf2 : s.free_list_head <;>
    simp [freePath, hn2, hp2, hf2]

theorem freePath_keys (s : AllocState) (q : Nat) (h : Header) :
    Mem.keys (freePath s q h).mem = Mem.keys s.mem := by
  cases hn2 : h.next <;> cases hp2 : h.prev <;> cases hf2 : s.free_list_head <;>
    simp [freePath, hn2, hp2, hf2, Mem.setNext, Mem.setPrev, Mem.setAllocated, Mem.keys_modify]

/-- The splice of `free` preserves the allocator invariant: the released
header moves from the allocated chain to the head of the free chain. -/
theorem free_inv (s : AllocState) (fl al : List Nat) (q : Nat) (h : Header)
    (hinv : InvData s fl al) (hmemq : q ∈ al) (hfq : Mem.find s.mem q = some h) :
    Inv (freePath s q h) := by
  obtain ⟨l1, l2, rfl⟩ := List.append_of_mem hmemq
  have halx0 := hinv.hal
  rw [segB_append_iff] at halx0
  obtain ⟨h2, hseg1, hseg2⟩ := halx0
  rw [segB_cons_iff] at hseg2
  obtain ⟨hh2, hq2, hfq2, hprev, hseg3⟩ := hseg2
  rw [hfq] at hfq2
  cases hfq2
  subst hh2
  have hnd := hinv.ndal
  rw [List.nodup_append, List.nodup_cons] at hnd
  obtain ⟨ndl1, ⟨hql2, ndl2⟩, hdisj⟩ := hnd
  have hql1 : q ∉ l1 := fun hx => hdisj hx (List.mem_cons_self _ _)
  have hqmem : q ∈ l1 ++ q :: l2 :=
    List.mem_append.mpr (Or.inr (List.mem_cons_self _ _))
  have hmem_l1 : ∀ x ∈ l1, x ∈ l1 ++ q :: l2 := fun x hx => List.mem_append.mpr (Or.inl hx)
  have hmem_l2 : ∀ x ∈ l2, x ∈ l1 ++ q :: l2 :=
    fun x hx => List.mem_append.mpr (Or.inr (List.mem_cons_of_mem _ hx))
  have hx_ne_fo : ∀ x, x ∈ l1 ++ q :: l2 → ∀ fo, s.free_list_head = some fo → x ≠ fo := by
    intro x hx fo hfo hxx
    subst hxx
    have hflx := hinv.hfl
    rw [hfo] at hflx
    obtain ⟨fl2, hfl2⟩ := segB_head _ _ _ _ hflx
    exact hinv.disj x (hfl2 ▸ List.mem_cons_self _ _) hx
  have hpa_l1 : ∀ pa, h.prev = some pa → pa ∈ l1 ∧ l1.getLast? = some pa := by
    intro pa hp
    rw [hp] at hprev
    have hgl := seedAfter_getLast l1 pa hprev.symm
    exact ⟨List.mem_of_mem_getLast? hgl, hgl⟩
  have hna_l2 : ∀ na, h.next = some na → ∃ l2x, l2 = na :: l2x := by
    intro na hn
    rw [hn] at hseg3
    exact segB_head _ _ _ _ hseg3
  have hna_mem : ∀ na, h.next = some na → na ∈ l2 := by
    intro na hn
    obtain ⟨l2x, hl2⟩ := hna_l2 na hn
    rw [hl2]
    exact List.mem_cons_self _ _
  have hq_ne_pa : ∀ pa, h.prev = some pa → q ≠ pa :=
    fun pa hp hqp => hql1 (hqp ▸ (hpa_l1 pa hp).1)
  have hq_ne_na : ∀ na, h.next = some na → q ≠ na := by
    intro na hn hqn
    subst hqn
    exact hql2 (hna_mem q hn)
  have hq_ne_fo : ∀ fo, s.free_list_head = some fo → q ≠ fo :=
    fun fo hfo => hx_ne_fo q hqmem fo hfo
  have hpa_ne_na : ∀ pa, h.prev = some pa → ∀ na, h.next = some na → pa ≠ na := by
    intro pa hp na hn hpn
    subst hpn
    exact hdisj (hpa_l1 pa hp).1 (List.mem_cons_of_mem q (hna_mem pa hn))
  -- untouched-address helper for members of the original allocated chain
  have hunt_al : ∀ x, x ∈ l1 ++ q :: l2 → x ≠ q →
      (∀ pa, h.prev = some pa → x ≠ pa) → (∀ na, h.next = some na → x ≠ na) →
      Mem.find (freePath s q h).mem x = Mem.find s.mem x := by
    intro x hx hxq hxp hxn
    exact freePath_find_untouched s q h x hxq hxn hxp (hx_ne_fo x hx)
  -- untouched-address helper for members of the free chain
  have hunt_fl : ∀ x ∈ fl, x ≠ s.free_list_head.getD (x + 1) →
      Mem.find (freePath s q h).mem x = Mem.find s.mem x := by
    intro x hx hxf
    refine freePath_find_untouched s q h x ?_ ?_ ?_ ?_
    · intro hxx
      exact hinv.disj q (hxx ▸ hx) hqmem
    · intro na hn hxx
      exact hinv.disj na (hxx ▸ hx) (hmem_l2 na (hna_mem na hn))
    · intro pa hp hxx
      exact hinv.disj pa (hxx ▸ hx) (hmem_l1 pa (hpa_l1 pa hp).1)
    · intro fo hfo hxx
      rw [hfo] at hxf
      exact hxf (by simpa using hxx)
  -- the new allocated chain
  have halchain : segB (freePath s q h).mem none (freePath s q h).allocated_list_head
      (l1 ++ l2) none = true := by
    cases hp : h.prev with
    | none =>
      have hl1 : l1 = [] := by
        rw [hp] at hprev
        exact (seedAfter_none_iff l1).mp hprev.symm
      subst hl1
      rw [freePath_alh_none s q h hp]
      rw [List.nil_append]
      cases hl2c : l2 with
      | nil =>
        subst hl2c
        rw [segB_nil_iff] at hseg3 ⊢
        exact hseg3
      | cons na l2x =>
        subst hl2c
        have hnext : h.next = some na := by
          rw [segB_cons_iff] at hseg3
          exact hseg3.1
        rw [hnext]
        refine segB_reseed s.mem (freePath s q h).mem (some q) none na l2x none
          (by rw [← hnext]; exact hseg3) ?_ ?_
        · rw [freePath_find_na s q h na hnext (Ne.symm (hq_ne_na na hnext))
            (fun pa hpp => absurd (hp ▸ hpp) (by simp))
            (fun fo hfo => hx_ne_fo na (hmem_l2 na (List.mem_cons_self _ _)) fo hfo)]
          rw [hp]
        · intro x hx
          refine hunt_al x (hmem_l2 x (List.mem_cons_of_mem _ hx)) ?_ ?_ ?_
          · intro hxx
            exact hql2 (hxx ▸ List.mem_cons_of_mem _ hx)
          · intro pa hpp
            rw [hp] at hpp
            cases hpp
          · intro na2 hnn hxx
            rw [hnext] at hnn
            cases hnn
            exact (List.nodup_cons.mp ndl2).1 (hxx ▸ hx)
    | some pa =>
      obtain ⟨hpamem, hpalast⟩ := hpa_l1 pa hp
      rw [freePath_alh_some s q h pa hp]
      rw [segB_append_iff]
      refine ⟨h.next, ?_, ?_⟩
      · refine segB_retarget s.mem (freePath s q h).mem l1 none s.allocated_list_head
          (some q) h.next pa hseg1 hpalast ndl1 ?_ ?_
        · rw [freePath_find_pa s q h pa hp (Ne.symm (hq_ne_pa pa hp))
            (fun na hn => hpa_ne_na pa hp na hn)
            (fun fo hfo => hx_ne_fo pa (hmem_l1 pa hpamem) fo hfo)]
        · intro x hx hxpa
          refine hunt_al x (hmem_l1 x hx) ?_ ?_ ?_
          · intro hxx
            exact hql1 (hxx ▸ hx)
          · intro pa2 hpp hxx
            rw [hp] at hpp
            cases hpp
            exact hxpa hxx
          · intro na hn hxx
            subst hxx
            exact hdisj hx (List.mem_cons_of_mem q (hna_mem x hn))
      · have hseed : seedAfter none l1 = some pa := by
          rw [hp] at hprev
          exact hprev.symm
        rw [hseed]
        cases hl2c : l2 with
        | nil =>
          subst hl2c
          rw [segB_nil_iff] at hseg3 ⊢
          exact hseg3
        | cons na l2x =>
          subst hl2c
          have hnext : h.next = some na := by
            rw [segB_cons_iff] at hseg3
            exact hseg3.1
          rw [hnext]
          refine segB_reseed s.mem (freePath s q h).mem (some q) (some pa) na l2x none
            (by rw [← hnext]; exact hseg3) ?_ ?_
          · rw [freePath_find_na s q h na hnext (Ne.symm (hq_ne_na na hnext))
              (fun pa2 hpp => Ne.symm (hpa_ne_na pa2 hpp na hnext))
              (fun fo hfo => hx_ne_fo na (hmem_l2 na (List.mem_cons_self _ _)) fo hfo)]
            rw [hp]
          · intro x hx
            refine hunt_al x (hmem_l2 x (List.mem_cons_of_mem _ hx)) ?_ ?_ ?_
            · intro hxx
              exact hql2 (hxx ▸ List.mem_cons_of_mem _ hx)
            · intro pa2 hpp hxx
              rw [hp] at hpp
              cases hpp
              exact hdisj hpamem (List.mem_cons_of_mem q (List.mem_cons_of_mem na (hxx ▸ hx)))
            · intro na2 hnn hxx
              rw [hnext] at hnn
              cases hnn
              exact (List.nodup_cons.mp ndl2).1 (hxx ▸ hx)
  -- the new free chain
  have hflchain : segB (freePath s q h).mem none (freePath s q h).free_list_head
      (q :: fl) none = true := by
    rw [freePath_flh]
    rw [segB_cons_iff]
    refine ⟨rfl, Header.mk s.free_list_head none h.size false, ?_, rfl, ?_⟩
    · exact freePath_find_q s q h hfq hq_ne_na hq_ne_pa hq_ne_fo
    · cases hfo : s.free_list_head with
      | none =>
        have hfl0 : fl = [] := by
          have hflx := hinv.hfl
          rw [hfo] at hflx
          exact segB_none_head _ _ _ hflx
        subst hfl0
        rw [segB_nil_iff]
      | some fo =>
        have hflx := hinv.hfl
        rw [hfo] at hflx
        obtain ⟨fl2, hfl2⟩ := segB_head _ _ _ _ hflx
        subst hfl2
        refine segB_reseed s.mem (freePath s q h).mem none (some q) fo fl2 none
          hflx ?_ ?_
        · rw [freePath_find_fo s q h fo hfo
            (fun hoo => hinv.disj q (hoo ▸ List.mem_cons_self _ _) hqmem)
            (fun na hn hoo => hinv.disj na (hoo ▸ List.mem_cons_self _ _)
              (hmem_l2 na (hna_mem na hn)))
            (fun pa hp hoo => hinv.disj pa (hoo ▸ List.mem_cons_self _ _)
              (hmem_l1 pa (hpa_l1 pa hp).1))]
        · intro x hx
          refine hunt_fl x (List.mem_cons_of_mem _ hx) ?_
          rw [hfo]
          intro hxx
          exact (List.nodup_cons.mp hinv.ndfl).1 ((by simpa using hxx) ▸ hx)
  -- assemble the invariant
  refine ⟨q :: fl, l1 ++ l2, ?_⟩
  have hkeys := freePath_keys s q h
  obtain ⟨hfa, hsa, hea, hdata⟩ := freePath_scalars s q h
  have hfindkeep : ∀ x, x ∈ l1 ++ l2 →
      ((Mem.find (freePath s q h).mem x).getD defaultHeader).allocated =
      ((Mem.find s.mem x).getD defaultHeader).allocated := by
    intro x hx
    rcases List.mem_append.mp hx with hx1 | hx2
    · by_cases hxpa : ∃ pa, h.prev = some pa ∧ x = pa
      · obtain ⟨pa, hp, hxe⟩ := hxpa
        subst hxe
        rw [freePath_find_pa s q h x hp (Ne.symm (hq_ne_pa x hp))
          (fun na hn => hpa_ne_na x hp na hn)
          (fun fo hfo => hx_ne_fo x (hmem_l1 x hx1) fo hfo)]
        cases Mem.find s.mem x <;> rfl
      · push_neg at hxpa
        refine congrArg (fun o => (Option.getD o defaultHeader).allocated) ?_
        refine hunt_al x (hmem_l1 x hx1) ?_ ?_ ?_
        · intro hxx
          exact hql1 (hxx ▸ hx1)
        · intro pa hp hxx
          exact hxpa pa hp hxx
        · intro na hn hxx
          subst hxx
          exact hdisj hx1 (List.mem_cons_of_mem q (hna_mem x hn))
    · by_cases hxna : ∃ na, h.next = some na ∧ x = na
      · obtain ⟨na, hn, hxe⟩ := hxna
        subst hxe
        rw [freePath_find_na s q h x hn (Ne.symm (hq_ne_na x hn))
          (fun pa hp => Ne.symm (hpa_ne_na pa hp x hn))
          (fun fo hfo => hx_ne_fo x (hmem_l2 x hx2) fo hfo)]
        cases Mem.find s.mem x <;> rfl
      · push_neg at hxna
        refine congrArg (fun o => (Option.getD o defaultHeader).allocated) ?_
        refine hunt_al x (hmem_l2 x hx2) ?_ ?_ ?_
        · intro hxx
          exact hql2 (hxx ▸ hx2)
        · intro pa hp hxx
          exact hdisj (hpa_l1 pa hp).1 (List.mem_cons_of_mem q (hxx ▸ hx2))
        · intro na hn hxx
          exact hxna na hn hxx
  constructor
  case hfl => exact hflchain
  case hal => exact halchain
  case ndfl =>
    exact List.nodup_cons.mpr ⟨fun hc => hinv.disj q hc hqmem, hinv.ndfl⟩
  case ndal =>
    exact List.Nodup.sublist
      (List.Sublist.append_left (List.sublist_cons_self q l2) l1) hinv.ndal
  case disj =>
    intro a ha hamem
    rcases List.mem_cons.mp ha with hc | hafl
    · subst hc
      rcases List.mem_append.mp hamem with h1 | h2
      · exact hql1 h1
      · exact hql2 h2
    · rcases List.mem_append.mp hamem with h1 | h2
      · exact hinv.disj a hafl (hmem_l1 a h1)
      · exact hinv.disj a hafl (hmem_l2 a h2)
  case cover =>
    intro a ha
    rw [hkeys] at ha
    rcases hinv.cover a ha with hafl | haal
    · exact Or.inl (List.mem_cons_of_mem _ hafl)
    · rcases List.mem_append.mp haal with h1 | h12
      · exact Or.inr (List.mem_append.mpr (Or.inl h1))
      · rcases List.mem_cons.mp h12 with rfl | h2
        · exact Or.inl (List.mem_cons_self _ _)
        · exact Or.inr (List.mem_append.mpr (Or.inr h2))
  case flagT =>
    intro a ha
    rw [hfindkeep a ha]
    rcases List.mem_append.mp ha with h1 | h2
    · exact hinv.flagT a (hmem_l1 a h1)
    · exact hinv.flagT a (hmem_l2 a h2)
  case flagF =>
    intro a ha
    rcases List.mem_cons.mp ha with hc | hafl
    · rw [hc, freePath_find_q s q h hfq hq_ne_na hq_ne_pa hq_ne_fo]
      rfl
    · by_cases hxfo : ∃ fo, s.free_list_head = some fo ∧ a = fo
      · obtain ⟨fo, hfo, hxe⟩ := hxfo
        subst hxe
        rw [freePath_find_fo s q h a hfo
          (fun hoo => hinv.disj q (hoo ▸ hafl) hqmem)
          (fun na hn hoo => hinv.disj na (hoo ▸ hafl) (hmem_l2 na (hna_mem na hn)))
          (fun pa hp hoo => hinv.disj pa (hoo ▸ hafl) (hmem_l1 pa (hpa_l1 pa hp).1))]
        have hFa := hinv.flagF a hafl
        cases hfoa : Mem.find s.mem a with
        | none => simp [defaultHeader]
        | some hhh =>
          rw [hfoa] at hFa
          simp at hFa ⊢
          exact hFa
      · push_neg at hxfo
        have hfk : Mem.find (freePath s q h).mem a = Mem.find s.mem a := by
          refine hunt_fl a hafl ?_
          cases hfo : s.free_list_head with
          | none => simp
          | some fo => simpa using hxfo fo hfo
        rw [hfk]
        exact hinv.flagF a hafl
  case bound =>
    intro a ha
    rw [hkeys] at ha
    rw [hfa]
    exact hinv.bound a ha
  case uninit =>
    intro h0
    rw [hsa] at h0
    obtain ⟨hm0, _, _⟩ := hinv.uninit h0
    rw [hm0] at hfq
    cases hfq

theorem inv_data_irrel (s : AllocState) (d : Nat → Nat) (hinv : Inv s) :
    Inv { s with data := d } := by
  obtain ⟨fl, al, hd⟩ := hinv
  exact ⟨fl, al, hd.hfl, hd.hal, hd.ndfl, hd.ndal, hd.disj, hd.cover, hd.flagF, hd.flagT,
    hd.bound, hd.uninit⟩

/-- Freshly started processes satisfy the invariant. -/
theorem initial_inv : Inv initialState := by
  refine ⟨[], [], ?_⟩
  constructor <;> simp [initialState, segB_nil_iff, Mem.keys]

/-- The whole of `malloc` preserves the allocator invariant. -/
theorem malloc_inv (heapBase size : Nat) (s : AllocState) (r : Option Nat) (s1 : AllocState)
    (hhb : heapBase ≠ 0) (hinv : Inv s) (hm : malloc heapBase size s = .ok r s1) :
    Inv s1 := by
  obtain ⟨hinv2, hs0⟩ := init_inv heapBase s hhb hinv
  obtain ⟨fl, al, hd⟩ := hinv2
  simp only [malloc] at hm
  split at hm
  · cases hm
    exact ⟨fl, al, hd⟩
  · have hlen : fl.length < (init heapBase s).mem.length + 1 := by
      have := nodup_length_le fl (init heapBase s).mem hd.ndfl
        (hd.fl_keys (init heapBase s) fl al)
      omega
    have hscan := scanLoop_sim (init heapBase s).mem size fl none
      (init heapBase s).free_list_head none ((init heapBase s).mem.length + 1)
      hd.hfl hd.flagF hlen
    rw [hscan] at hm
    cases hbest : (scanListC size (chainPairs (init heapBase s).mem fl) none).1 with
    | none =>
      rw [hbest] at hm
      exact bump_inv (init heapBase s) fl al size r s1 hd hs0 hm
    | some bq =>
      obtain ⟨b, bs⟩ := bq
      rw [hbest] at hm
      have hbfl : b ∈ fl := by
        rw [scanListC_none] at hbest
        have hmemq := (firstMin_fits size _ _ hbest).2
        simp only [chainPairs, List.mem_map] at hmemq
        obtain ⟨a, haf, heq⟩ := hmemq
        rw [Prod.mk.injEq] at heq
        exact heq.1 ▸ haf
      obtain ⟨hbh, hfindb⟩ := segB_find _ fl _ _ _ hd.hfl b hbfl
      have hm3 : (match Mem.find (init heapBase s).mem b with
          | none => MRes.ub
          | some hb => MRes.ok (some (HEADER_TO_BLOCK b))
              (reusePath (init heapBase s) b hb)) = .ok r s1 := hm
      rw [hfindb] at hm3
      cases hm3
      exact reuse_inv (init heapBase s) fl al b hbh hd hbfl hfindb

/-- The whole of `free` preserves the allocator invariant. -/
theorem freeOp_inv (p : Option Nat) (s : AllocState) (s1 : AllocState)
    (hinv : Inv s) (hf : freeOp p s = .ok s1) : Inv s1 := by
  cases p with
  | none => cases hf; exact hinv
  | some pp =>
    obtain ⟨fl, al, hd⟩ := hinv
    simp only [freeOp] at hf
    cases hfq : Mem.find s.mem (BLOCK_TO_HEADER pp) with
    | none => rw [hfq] at hf; cases hf
    | some h =>
      rw [hfq] at hf
      have hf2 : (if h.allocated = false then FRes.fatal
          else FRes.ok (freePath s (BLOCK_TO_HEADER pp) h)) = .ok s1 := hf
      by_cases hne : h.allocated = false
      · rw [if_pos hne] at hf2
        exact FRes.noConfusion hf2
      · rw [if_neg hne] at hf2
        cases hf2
        have hkey : BLOCK_TO_HEADER pp ∈ Mem.keys s.mem := by
          rw [← Mem.find_isSome_iff, hfq]
          rfl
        have hmemal : BLOCK_TO_HEADER pp ∈ al := by
          rcases hd.cover _ hkey with h1 | h2
          · exfalso
            have := hd.flagF _ h1
            rw [hfq] at this
            exact hne (by simpa using this)
          · exact h2
        exact free_inv s fl al (BLOCK_TO_HEADER pp) h hd hmemal hfq

/-- The whole of `calloc` preserves the allocator invariant. -/
theorem calloc_inv (heapBase n m : Nat) (s : AllocState) (r : Option Nat) (s1 : AllocState)
    (hhb : heapBase ≠ 0) (hinv : Inv s) (hc : calloc heapBase n m s = .ok r s1) :
    Inv s1 := by
  simp only [calloc] at hc
  cases hmr : malloc heapBase ((n * m) % WORD_MODULUS) s with
  | div => rw [hmr] at hc; cases hc
  | ub => rw [hmr] at hc; cases hc
  | fatal => rw [hmr] at hc; cases hc
  | ok rp sp =>
    rw [hmr] at hc
    cases rp with
    | none =>
      cases hc
      exact malloc_inv heapBase _ s _ _ hhb hinv hmr
    | some p =>
      cases hc
      exact inv_data_irrel sp _ (malloc_inv heapBase _ s _ _ hhb hinv hmr)

/-- The whole of `realloc` preserves the allocator invariant. -/
theorem realloc_inv (heapBase : Nat) (p : Option Nat) (size : Nat) (s : AllocState)
    (r : Option Nat) (s1 : AllocState)
    (hhb : heapBase ≠ 0) (hinv : Inv s) (hr : realloc heapBase p size s = .ok r s1) :
    Inv s1 := by
  cases p with
  | none => exact malloc_inv heapBase size s r s1 hhb hinv hr
  | some pp =>
    simp only [realloc] at hr
    by_cases hz : size = 0
    · rw [if_pos hz] at hr
      cases hfo : freeOp (some pp) s with
      | ub => rw [hfo] at hr; exact MRes.noConfusion hr
      | fatal => rw [hfo] at hr; exact MRes.noConfusion hr
      | ok sx =>
        rw [hfo] at hr
        have hr2 : MRes.ok none sx = .ok r s1 := hr
        cases hr2
        exact freeOp_inv (some pp) s _ hinv hfo
    · rw [if_neg hz] at hr
      cases hfind : Mem.find s.mem (BLOCK_TO_HEADER pp) with
      | none => rw [hfind] at hr; exact MRes.noConfusion hr
      | some h =>
        rw [hfind] at hr
        have hrm : (if size ≤ h.size then MRes.ok (some pp) s
            else
              match malloc heapBase size s with
              | MRes.ok (some np) sq =>
                match Mem.find sq.mem (BLOCK_TO_HEADER pp) with
                | none => MRes.ub
                | some h1 =>
                  match freeOp (some pp)
                      { sq with data := copyRange sq.data pp np h1.size } with
                  | .ok s3 => MRes.ok (some np) s3
                  | .ub => MRes.ub
                  | .fatal => MRes.fatal
              | MRes.ok none sq => MRes.ok none sq
              | MRes.div => MRes.div
              | MRes.ub => MRes.ub
              | MRes.fatal => MRes.fatal) = .ok r s1 := hr
        by_cases hle : size ≤ h.size
        · rw [if_pos hle] at hrm
          cases hrm
          exact hinv
        · rw [if_neg hle] at hrm
          cases hmr : malloc heapBase size s with
          | div => rw [hmr] at hrm; exact MRes.noConfusion hrm
          | ub => rw [hmr] at hrm; exact MRes.noConfusion hrm
          | fatal => rw [hmr] at hrm; exact MRes.noConfusion hrm
          | ok rp sp =>
            rw [hmr] at hrm
            cases rp with
            | none =>
              have hr2 : MRes.ok none sp = .ok r s1 := hrm
              cases hr2
              exact malloc_inv heapBase size s _ _ hhb hinv hmr
            | some np =>
              have hr2 : (match Mem.find sp.mem (BLOCK_TO_HEADER pp) with
                  | none => MRes.ub
                  | some h1 =>
                    match freeOp (some pp)
                        { sp with data := copyRange sp.data pp np h1.size } with
                    | .ok s3 => MRes.ok (some np) s3
                    | .ub => MRes.ub
                    | .fatal => MRes.fatal) = .ok r s1 := hrm
              cases hf2 : Mem.find sp.mem (BLOCK_TO_HEADER pp) with
              | none => rw [hf2] at hr2; exact MRes.noConfusion hr2
              | some h1 =>
                rw [hf2] at hr2
                have hr3 : (match freeOp (some pp)
                    { sp with data := copyRange sp.data pp np h1.size } with
                    | .ok s3 => MRes.ok (some np) s3
                    | .ub => MRes.ub
                    | .fatal => MRes.fatal) = .ok r s1 := hr2
                cases hfo : freeOp (some pp)
                    { sp with data := copyRange sp.data pp np h1.size } with
                | ub => rw [hfo] at hr3; exact MRes.noConfusion hr3
                | fatal => rw [hfo] at hr3; exact MRes.noConfusion hr3
                | ok s3 =>
                  rw [hfo] at hr3
                  have hr4 : MRes.ok (some np) s3 = .ok r s1 := hr3
                  cases hr4
                  refine freeOp_inv (some pp) _ _ ?_ hfo
                  exact inv_data_irrel sp _ (malloc_inv heapBase size s _ _ hhb hinv hmr)

/-- Every completed operation preserves the allocator invariant. -/
theorem step_inv (heapBase : Nat) (s : AllocState) (op : Op) (s1 : AllocState)
    (hhb : heapBase ≠ 0) (hinv : Inv s) (hs : step heapBase s op = some s1) : Inv s1 := by
  cases op with
  | alloc n =>
    simp only [step] at hs
    cases hmr : malloc heapBase n s with
    | div => rw [hmr] at hs; cases hs
    | ub => rw [hmr] at hs; cases hs
    | fatal => rw [hmr] at hs; cases hs
    | ok rp sp =>
      rw [hmr] at hs
      cases hs
      exact malloc_inv heapBase n s rp s1 hhb hinv hmr
  | release p =>
    simp only [step] at hs
    cases hfo : freeOp p s with
    | ub => rw [hfo] at hs; cases hs
    | fatal => rw [hfo] at hs; cases hs
    | ok sx =>
      rw [hfo] at hs
      cases hs
      exact freeOp_inv p s s1 hinv hfo
  | zalloc n m =>
    simp only [step] at hs
    cases hmr : calloc heapBase n m s with
    | div => rw [hmr] at hs; cases hs
    | ub => rw [hmr] at hs; cases hs
    | fatal => rw [hmr] at hs; cases hs
    | ok rp sp =>
      rw [hmr] at hs
      cases hs
      exact calloc_inv heapBase n m s rp s1 hhb hinv hmr
  | resize p n =>
    simp only [step] at hs
    cases hmr : realloc heapBase p n s with
    | div => rw [hmr] at hs; cases hs
    | ub => rw [hmr] at hs; cases hs
    | fatal => rw [hmr] at hs; cases hs
    | ok rp sp =>
      rw [hmr] at hs
      cases hs
      exact realloc_inv heapBase p n s rp s1 hhb hinv hmr

/-- Every completed run of operations preserves the allocator invariant. -/
theorem run_inv (heapBase : Nat) (ops : List Op) :
    ∀ (s s1 : AllocState), heapBase ≠ 0 → Inv s →
      run heapBase ops s = some s1 → Inv s1 := by
  induction ops with
  | nil =>
    intro s s1 _ hinv hr
    cases hr
    exact hinv
  | cons op ops ih =>
    intro s s1 hhb hinv hr
    simp only [run] at hr
    cases hst : step heapBase s op with
    | none => rw [hst] at hr; cases hr
    | some sx =>
      rw [hst] at hr
      exact ih sx s1 hhb (step_inv heapBase s op sx hhb hinv hst) hr

/-- C5: for every sequence of operations (allocate, release, zeroed_allocate,
resize) run from the initial empty state with a nonzero heap base, after each
completed operation the free and allocated lists are well-formed doubly-linked
chains, every live header belongs to exactly one of FreeList and
AllocatedList, its allocated flag is true iff it is on AllocatedList, and
adjacent links are symmetric: a.next == b implies b.prev == a, with both
chains NULL-terminated at the ends. -/
theorem c5_list_invariant (heapBase : Nat) (ops : List Op) (s : AllocState)
    (hhb : heapBase ≠ 0) (hrun : run heapBase ops initialState = some s) :
    ∃ fl al,
      segB s.mem none s.free_list_head fl none = true ∧
      segB s.mem none s.allocated_list_head al none = true ∧
      (∀ a ∈ Mem.keys s.mem, (a ∈ fl ∧ a ∉ al) ∨ (a ∈ al ∧ a ∉ fl)) ∧
      (∀ a ha, Mem.find s.mem a = some ha → (ha.allocated = true ↔ a ∈ al)) ∧
      (∀ a ha b, Mem.find s.mem a = some ha → ha.next = some b →
        ∃ hb, Mem.find s.mem b = some hb ∧ hb.prev = some a) := by
  obtain ⟨fl, al, hd⟩ := run_inv heapBase ops initialState s hhb initial_inv hrun
  refine ⟨fl, al, hd.hfl, hd.hal, ?_, ?_, ?_⟩
  · intro a ha
    rcases hd.cover a ha with h1 | h2
    · exact Or.inl ⟨h1, hd.disj a h1⟩
    · exact Or.inr ⟨h2, fun hc => hd.disj a hc h2⟩
  · intro a ha hfind
    constructor
    · intro halloc
      have hk : a ∈ Mem.keys s.mem := by
        rw [← Mem.find_isSome_iff, hfind]
        rfl
      rcases hd.cover a hk with h1 | h2
      · exfalso
        have hfa := hd.flagF a h1
        rw [hfind] at hfa
        simp only [Option.getD_some] at hfa
        rw [halloc] at hfa
        exact Bool.noConfusion hfa
      · exact h2
    · intro hmem
      have hfa := hd.flagT a hmem
      rw [hfind] at hfa
      simpa using hfa
  · intro a ha b hfind hnext
    have hk : a ∈ Mem.keys s.mem := by
      rw [← Mem.find_isSome_iff, hfind]
      rfl
    rcases hd.cover a hk with h1 | h2
    · exact segB_next_prev s.mem s.free_list_head fl hd.hfl a h1 ha hfind b hnext
    · exact segB_next_prev s.mem s.allocated_list_head al hd.hal a h2 ha hfind b hnext

/-- A concrete operation sequence exercising all four API calls: allocate,
resize (growing, so it moves the block), release, zeroed_allocate, and a
final allocate that reuses a freed block. -/
def opsW : List Op :=
  [Op.alloc 24, Op.alloc 19, Op.resize (some 4144) 30, Op.release (some 4208),
   Op.zalloc 2 3, Op.alloc 20]

theorem c5_list_invariant_witness :
    ∃ fl al,
      segB ((run 4096 opsW initialState).getD initialState).mem none
        ((run 4096 opsW initialState).getD initialState).free_list_head fl none = true ∧
      segB ((run 4096 opsW initialState).getD initialState).mem none
        ((run 4096 opsW initialState).getD initialState).allocated_list_head al none = true ∧
      (∀ a ∈ Mem.keys ((run 4096 opsW initialState).getD initialState).mem,
        (a ∈ fl ∧ a ∉ al) ∨ (a ∈ al ∧ a ∉ fl)) ∧
      (∀ a ha, Mem.find ((run 4096 opsW initialState).getD initialState).mem a = some ha →
        (ha.allocated = true ↔ a ∈ al)) ∧
      (∀ a ha b,
        Mem.find ((run 4096 opsW initialState).getD initialState).mem a = some ha →
        ha.next = some b →
        ∃ hb, Mem.find ((run 4096 opsW initialState).getD initialState).mem b = some hb ∧
          hb.prev = some a) :=
  c5_list_invariant 4096 opsW ((run 4096 opsW initialState).getD initialState)
    (by decide) rfl

end BFAlloc
